import Mathlib

/-! # apr-util: the URI component parser (`uri/apr_uri.c`) and the XML library (`apr_xml.h`)

A shallow embedding of `apr_uri_parse_components`,
`apr_uri_parse_hostinfo_components` and `apr_uri_unparse_components`, and of
the namespace table, the quoting and the tree builder that `apr_xml.h`
declares.

Conventions of the embedding.

* A byte is a `Char`; a C string is the `List Char` of the bytes a pointer
  points at.  The end of the list stands for the terminating NUL, and a NUL
  byte inside the list terminates the string exactly as it does in C.
* A `const char *` into the text being parsed is the suffix of the text that
  starts at the pointed-at byte.  Pointer differences are differences of the
  lengths of two suffixes of the same text.
* A nullable `char *` field is an `Option (List Char)`.
* The pool argument `p` only provides storage and is left out.
* The XML tokenizer is an external collaborator: a chunk of input is the list
  of the events the tokenizer yields for it.
-/

namespace AprUri

/-! ## Bytes, pointers and the C library -/

/-- The NUL byte. -/
def NUL : Char := Char.ofNat 0

/-- The byte `*s`: the head of the remaining text, or NUL at the terminator. -/
def deref : List Char → Char
  | [] => NUL
  | c :: _ => c

/-- The pointer difference `s - base`, for `s` a later position in the text of `base`. -/
def ptrdiff (s base : List Char) : Nat := base.length - s.length

/-- The function `apr_pstrdup(p, s)`: a copy of the string at `s`, up to its NUL. -/
def apr_pstrdup (s : List Char) : List Char := s.takeWhile (fun c => c != NUL)

/-- The function `apr_pstrndup(p, s, n)`: a copy of at most `n` bytes of the string at `s`. -/
def apr_pstrndup (s : List Char) (n : Nat) : List Char := apr_pstrdup (s.take n)

/-- The function `apr_pstrcat(p, a, b, ..., NULL)`: the concatenation of its
arguments up to the first NULL one. -/
def apr_pstrcat : List (Option (List Char)) → List Char
  | [] => []
  | none :: _ => []
  | some s :: rest => s ++ apr_pstrcat rest

/-- The function `memchr(s, c, n)`: the offset of the first `c` among the first `n` bytes at `s`. -/
def memchr : List Char → Char → Nat → Option Nat
  | _, _, 0 => none
  | [], _, _ + 1 => none
  | x :: s, c, n + 1 => if x = c then some 0 else (memchr s c n).map (fun i => i + 1)

/-- The function `strchr(s, c)` for `c` other than NUL: the offset of the first `c`
in the string at `s`, the search ending at the NUL. -/
def strchr : List Char → Char → Option Nat
  | [], _ => none
  | x :: s, c =>
    if x = c then some 0
    else if x = NUL then none
    else (strchr s c).map (fun i => i + 1)

/-- The C-locale `isspace`. -/
def isspace (c : Char) : Bool :=
  c.toNat = 32 || (9 ≤ c.toNat && c.toNat ≤ 13)

/-- The C-locale `isdigit`. -/
def isdigit (c : Char) : Bool := 48 ≤ c.toNat && c.toNat ≤ 57

/-- The largest `long` (LP64). -/
def LONG_MAX : Int := 2 ^ 63 - 1

/-- The smallest `long` (LP64). -/
def LONG_MIN : Int := -(2 ^ 63)

/-- The digit loop of `strtol` in base 10: the accumulated magnitude and the
position of the first byte that is not a digit. -/
def strtol_digits : Nat → List Char → Nat × List Char
  | acc, [] => (acc, [])
  | acc, c :: s =>
    if isdigit c then strtol_digits (10 * acc + (c.toNat - 48)) s else (acc, c :: s)

/-- The function `strtol(nptr, &endstr, 10)` of the C library: optional white
space, an optional sign, then decimal digits; the value saturates at
`LONG_MIN` and `LONG_MAX`; when there is no digit the value is 0 and `endstr`
is `nptr`.  Returns the value and `endstr`. -/
def strtol (nptr : List Char) : Int × List Char :=
  let s := nptr.dropWhile isspace
  let neg := deref s = '-'
  let s1 := if deref s = '-' ∨ deref s = '+' then s.drop 1 else s
  if isdigit (deref s1) then
    let r := strtol_digits 0 s1
    let v : Int := if neg then -(r.1 : Int) else (r.1 : Int)
    (if v > LONG_MAX then LONG_MAX else if v < LONG_MIN then LONG_MIN else v, r.2)
  else (0, nptr)

/-- Conversion of a `long` to `int` (two's complement, 32 bits). -/
def long_to_int (v : Int) : Int := (v + 2 ^ 31) % 2 ^ 32 - 2 ^ 31

/-- Conversion of an integer to `apr_port_t`, an unsigned 16-bit integer. -/
def to_port (v : Int) : Nat := (v % 65536).toNat

/-- The C-locale `tolower`, as a byte value. -/
def tolower (c : Char) : Int := (c.toLower.toNat : Int)

/-- The function `strcasecmp(a, b)`. -/
def strcasecmp : List Char → List Char → Int
  | [], [] => 0
  | [], b :: _ => 0 - tolower b
  | a :: _, [] => tolower a
  | a :: as, b :: bs =>
    if tolower a = tolower b then strcasecmp as bs else tolower a - tolower b

/-- The status `APR_SUCCESS` of `apr_errno.h`. -/
def APR_SUCCESS : Int := 0

/-- The status `APR_EGENERAL` of `apr_errno.h` (`APR_OS_START_ERROR + 14`). -/
def APR_EGENERAL : Int := 20014

/-! ## `apr_uri.h` -/

def APU_URI_FTP_DEFAULT_PORT : Nat := 21
def APU_URI_SSH_DEFAULT_PORT : Nat := 22
def APU_URI_TELNET_DEFAULT_PORT : Nat := 23
def APU_URI_GOPHER_DEFAULT_PORT : Nat := 70
def APU_URI_HTTP_DEFAULT_PORT : Nat := 80
def APU_URI_POP_DEFAULT_PORT : Nat := 110
def APU_URI_NNTP_DEFAULT_PORT : Nat := 119
def APU_URI_IMAP_DEFAULT_PORT : Nat := 143
def APU_URI_PROSPERO_DEFAULT_PORT : Nat := 191
def APU_URI_WAIS_DEFAULT_PORT : Nat := 210
def APU_URI_LDAP_DEFAULT_PORT : Nat := 389
def APU_URI_HTTPS_DEFAULT_PORT : Nat := 443
def APU_URI_RTSP_DEFAULT_PORT : Nat := 554
def APU_URI_SNEWS_DEFAULT_PORT : Nat := 563
def APU_URI_ACAP_DEFAULT_PORT : Nat := 674
def APU_URI_NFS_DEFAULT_PORT : Nat := 2049
def APU_URI_TIP_DEFAULT_PORT : Nat := 3372
def APU_URI_SIP_DEFAULT_PORT : Nat := 5060

def APR_URI_UNP_OMITSITEPART : Nat := 1
def APR_URI_UNP_OMITUSER : Nat := 2
def APR_URI_UNP_OMITPASSWORD : Nat := 4
def APR_URI_UNP_OMITUSERINFO : Nat := APR_URI_UNP_OMITUSER ||| APR_URI_UNP_OMITPASSWORD
def APR_URI_UNP_REVEALPASSWORD : Nat := 8
def APR_URI_UNP_OMITPATHINFO : Nat := 16
def APR_URI_UNP_OMITQUERY : Nat := 32

/-- The structure `apr_uri_components`. -/
structure apr_uri_components where
  scheme : Option (List Char)
  hostinfo : Option (List Char)
  user : Option (List Char)
  password : Option (List Char)
  hostname : Option (List Char)
  port_str : Option (List Char)
  path : Option (List Char)
  query : Option (List Char)
  fragment : Option (List Char)
  hostent : Option Nat
  port : Nat
  is_initialized : Nat
  dns_looked_up : Nat
  dns_resolved : Nat
  deriving DecidableEq, Repr

/-- The effect of `memset(uptr, 0, sizeof(*uptr))`. -/
def zeroed : apr_uri_components :=
  { scheme := none, hostinfo := none, user := none, password := none,
    hostname := none, port_str := none, path := none, query := none,
    fragment := none, hostent := none, port := 0, is_initialized := 0,
    dns_looked_up := 0, dns_resolved := 0 }

/-! ## `apr_uri.c` -/

/-- The table `schemes[]`, without its terminating entry. -/
def schemes : List (List Char × Nat) :=
  [ ("http".toList, APU_URI_HTTP_DEFAULT_PORT),
    ("ftp".toList, APU_URI_FTP_DEFAULT_PORT),
    ("https".toList, APU_URI_HTTPS_DEFAULT_PORT),
    ("gopher".toList, APU_URI_GOPHER_DEFAULT_PORT),
    ("ldap".toList, APU_URI_LDAP_DEFAULT_PORT),
    ("nntp".toList, APU_URI_NNTP_DEFAULT_PORT),
    ("snews".toList, APU_URI_SNEWS_DEFAULT_PORT),
    ("imap".toList, APU_URI_IMAP_DEFAULT_PORT),
    ("pop".toList, APU_URI_POP_DEFAULT_PORT),
    ("sip".toList, APU_URI_SIP_DEFAULT_PORT),
    ("rtsp".toList, APU_URI_RTSP_DEFAULT_PORT),
    ("wais".toList, APU_URI_WAIS_DEFAULT_PORT),
    ("z39.50r".toList, APU_URI_WAIS_DEFAULT_PORT),
    ("z39.50s".toList, APU_URI_WAIS_DEFAULT_PORT),
    ("prospero".toList, APU_URI_PROSPERO_DEFAULT_PORT),
    ("nfs".toList, APU_URI_NFS_DEFAULT_PORT),
    ("tip".toList, APU_URI_TIP_DEFAULT_PORT),
    ("acap".toList, APU_URI_ACAP_DEFAULT_PORT),
    ("telnet".toList, APU_URI_TELNET_DEFAULT_PORT),
    ("ssh".toList, APU_URI_SSH_DEFAULT_PORT) ]

/-- The linear search of `apr_uri_default_port_for_scheme` over a table. -/
def default_port_search (scheme_str : List Char) : List (List Char × Nat) → Nat
  | [] => 0
  | (name, port) :: rest =>
    if strcasecmp scheme_str name = 0 then port else default_port_search scheme_str rest

/-- The function `apr_uri_default_port_for_scheme`. -/
def apr_uri_default_port_for_scheme (scheme_str : List Char) : Nat :=
  default_port_search scheme_str schemes

def T_COLON : Nat := 0x01
def T_SLASH : Nat := 0x02
def T_QUESTION : Nat := 0x04
def T_HASH : Nat := 0x08
def T_NUL : Nat := 0x80

/-- Modelled from the spec: the generated table `uri_delims` of `uri_delims.h`,
which is not among the sources; each delimiter byte carries the flag that the
`T_*` definitions of `apr_uri.c` name for it, every other byte carries none. -/
def uri_delims (c : Char) : Nat :=
  if c = ':' then T_COLON
  else if c = '/' then T_SLASH
  else if c = '?' then T_QUESTION
  else if c = '#' then T_HASH
  else if c = NUL then T_NUL
  else 0

def NOTEND_SCHEME : Nat := 0xff
def NOTEND_HOSTINFO : Nat := T_SLASH ||| T_QUESTION ||| T_HASH ||| T_NUL
def NOTEND_PATH : Nat := T_QUESTION ||| T_HASH ||| T_NUL

/-- The loop `while ((uri_delims[*s] & mask) == 0) ++s;`: the position where it
stops.  Every mask in use contains `T_NUL`, so the loop stops at the terminator. -/
def scan (mask : Nat) : List Char → List Char
  | [] => []
  | c :: s => if uri_delims c &&& mask = 0 then scan mask s else c :: s

/-- The label `deal_with_path` of `apr_uri_parse_components`, entered with `uri`
at the first byte of the path. -/
def deal_with_path (uri : List Char) (uptr : apr_uri_components) :
    Int × apr_uri_components :=
  let s := scan NOTEND_PATH uri
  let uptr := if ptrdiff s uri ≠ 0 then
      { uptr with path := some (apr_pstrndup uri (ptrdiff s uri)) } else uptr
  if deref s = NUL then (APR_SUCCESS, uptr)
  else if deref s = '?' then
    let s := s.drop 1
    match strchr s '#' with
    | some j =>
      (APR_SUCCESS, { uptr with fragment := some (apr_pstrdup (s.drop (j + 1))),
                                query := some (apr_pstrndup s j) })
    | none => (APR_SUCCESS, { uptr with query := some (apr_pstrdup s) })
  else (APR_SUCCESS, { uptr with fragment := some (apr_pstrdup (s.drop 1)) })

/-- The label `deal_with_host` of `apr_uri_parse_components`, entered with
`hostinfo` at the first byte of the host name and `uri` at the end of the
host information. -/
def deal_with_host (hostinfo uri : List Char) (uptr : apr_uri_components) :
    Int × apr_uri_components :=
  match memchr hostinfo ':' (ptrdiff uri hostinfo) with
  | none =>
    deal_with_path uri
      { uptr with hostname := some (apr_pstrndup hostinfo (ptrdiff uri hostinfo)) }
  | some i =>
    let uptr := { uptr with hostname := some (apr_pstrndup hostinfo i) }
    let s := hostinfo.drop (i + 1)
    let port_str := apr_pstrndup s (ptrdiff uri s)
    let uptr := { uptr with port_str := some port_str }
    if ptrdiff uri s ≠ 0 then
      let r := strtol port_str
      let port := long_to_int r.1
      let uptr := { uptr with port := to_port port }
      if deref r.2 = NUL then deal_with_path uri uptr
      else (APR_EGENERAL, uptr)
    else
      deal_with_path uri
        { uptr with port := apr_uri_default_port_for_scheme (uptr.scheme.getD []) }

/-- The loop `do { --s; } while (s >= hostinfo && *s != '@');` started `k` bytes
after `hostinfo`: the offset of the `@` it stops at, or `none` when it runs
past `hostinfo`. -/
def last_at (hostinfo : List Char) : Nat → Option Nat
  | 0 => none
  | k + 1 => if deref (hostinfo.drop k) = '@' then some k else last_at hostinfo k

/-- The function `apr_uri_parse_components`; the second argument is the
structure `*uptr` as the caller passes it. -/
def apr_uri_parse_components (uri : List Char) (_uptr : apr_uri_components) :
    Int × apr_uri_components :=
  let uptr := { zeroed with is_initialized := 1 }
  if deref uri = '/' then deal_with_path uri uptr
  else
    let s := scan NOTEND_SCHEME uri
    if ptrdiff s uri = 0 ∨ deref s ≠ ':' ∨ deref (s.drop 1) ≠ '/'
        ∨ deref (s.drop 2) ≠ '/' then
      deal_with_path uri uptr
    else
      let uptr := { uptr with scheme := some (apr_pstrndup uri (ptrdiff s uri)) }
      let hostinfo := s.drop 3
      let s := scan NOTEND_HOSTINFO hostinfo
      let uri := s
      let uptr := { uptr with hostinfo := some (apr_pstrndup hostinfo (ptrdiff uri hostinfo)) }
      match last_at hostinfo (ptrdiff s hostinfo) with
      | none => deal_with_host hostinfo uri uptr
      | some k =>
        let uptr :=
          match memchr hostinfo ':' k with
          | some j =>
            { uptr with user := some (apr_pstrndup hostinfo j),
                        password := some (apr_pstrndup (hostinfo.drop (j + 1)) (k - (j + 1))) }
          | none => { uptr with user := some (apr_pstrndup hostinfo k) }
        deal_with_host (hostinfo.drop (k + 1)) uri uptr

/-- The function `apr_uri_parse_hostinfo_components`. -/
def apr_uri_parse_hostinfo_components (hostinfo : List Char) (_uptr : apr_uri_components) :
    Int × apr_uri_components :=
  let uptr := { zeroed with is_initialized := 1 }
  let uptr := { uptr with hostinfo := some (apr_pstrdup hostinfo) }
  match strchr hostinfo ':' with
  | none => (APR_EGENERAL, uptr)
  | some i =>
    let uptr := { uptr with hostname := some (apr_pstrndup hostinfo i) }
    let s := hostinfo.drop (i + 1)
    let uptr := { uptr with port_str := some (apr_pstrdup s) }
    if deref s ≠ NUL then
      let r := strtol (apr_pstrdup s)
      let uptr := { uptr with port := to_port r.1 }
      if deref r.2 = NUL then (APR_SUCCESS, uptr) else (APR_EGENERAL, uptr)
    else (APR_EGENERAL, uptr)

/-- The test `port_str == NULL || port == 0 || port == apr_uri_default_port_for_scheme(scheme)`
of `apr_uri_unparse_components`; `none` when the call is reached with a null `scheme`. -/
def is_default_port (uptr : apr_uri_components) : Option Bool :=
  if uptr.port_str = none ∨ uptr.port = 0 then some true
  else
    match uptr.scheme with
    | none => none
    | some scheme => some (decide (uptr.port = apr_uri_default_port_for_scheme scheme))

/-- The first `apr_pstrcat` of `apr_uri_unparse_components`: the `user:password@` string. -/
def unparse_userinfo (uptr : apr_uri_components) (flags : Nat) : List Char :=
  apr_pstrcat
    [ if uptr.user ≠ none ∧ flags &&& APR_URI_UNP_OMITUSER = 0 then uptr.user else some [],
      if uptr.password ≠ none ∧ flags &&& APR_URI_UNP_OMITPASSWORD = 0
        then some ":".toList else some [],
      if uptr.password ≠ none ∧ flags &&& APR_URI_UNP_OMITPASSWORD = 0
        then (if flags &&& APR_URI_UNP_REVEALPASSWORD ≠ 0 then uptr.password
              else some "XXXXXXXX".toList)
        else some [],
      if (uptr.user ≠ none ∧ flags &&& APR_URI_UNP_OMITUSER = 0)
          ∨ (uptr.password ≠ none ∧ flags &&& APR_URI_UNP_OMITPASSWORD = 0)
        then some "@".toList else some [] ]

/-- The function `apr_uri_unparse_components`; `none` when the code dereferences a
null `scheme`. -/
def apr_uri_unparse_components (uptr : apr_uri_components) (flags : Nat) :
    Option (List Char) :=
  let ret : List Char := []
  let site : Option (List Char) :=
    if flags &&& APR_URI_UNP_OMITSITEPART = 0 then
      let ret :=
        if uptr.user ≠ none ∨ uptr.password ≠ none then unparse_userinfo uptr flags else ret
      match uptr.hostname with
      | some hostname =>
        match is_default_port uptr with
        | none => none
        | some d =>
          some (apr_pstrcat
            [ uptr.scheme, some "://".toList, some ret, some hostname,
              if d then some [] else some ":".toList,
              if d then some [] else uptr.port_str ])
      | none => some ret
    else some ret
  match site with
  | none => none
  | some ret =>
    if flags &&& APR_URI_UNP_OMITPATHINFO = 0 then
      some (apr_pstrcat
        [ some ret,
          if uptr.path ≠ none then uptr.path else some [],
          if uptr.query ≠ none ∧ flags &&& APR_URI_UNP_OMITQUERY = 0
            then some "?".toList else some [],
          if uptr.query ≠ none ∧ flags &&& APR_URI_UNP_OMITQUERY = 0
            then uptr.query else some [],
          if uptr.fragment ≠ none ∧ flags &&& APR_URI_UNP_OMITQUERY = 0
            then some "#".toList else none,
          if uptr.fragment ≠ none ∧ flags &&& APR_URI_UNP_OMITQUERY = 0
            then uptr.fragment else none ])
    else some ret

/-! ## Vocabulary of the statements -/

/-- The text `l` contains none of the bytes `cs`. -/
def noneOf (cs l : List Char) : Prop := ∀ c ∈ cs, c ∉ l

instance (cs l : List Char) : Decidable (noneOf cs l) := by
  unfold noneOf
  infer_instance

/-- The decimal value of a string of digits. -/
def decimal_value (D : List Char) : Nat :=
  D.foldl (fun a c => 10 * a + (c.toNat - 48)) 0

/-- The structure after the path assignment of `deal_with_path`: `path` is set
to the scanned text `P` unless that text is empty. -/
def with_path (P : List Char) (u : apr_uri_components) : apr_uri_components :=
  if P = [] then u else { u with path := some P }

/-- The text of `l` before its first `c`; all of `l` when it has no `c`. -/
def upto (c : Char) (l : List Char) : List Char := l.takeWhile (fun x => x != c)

/-- The text of `l` after its first `c`; absent when it has no `c`. -/
def past (c : Char) (l : List Char) : Option (List Char) :=
  if c ∈ l then some ((l.dropWhile (fun x => x != c)).drop 1) else none

/-- The text of `l` after its last `c`; all of `l` when it has no `c`. -/
def after_last (c : Char) (l : List Char) : List Char := (upto c l.reverse).reverse

/-- The text of `l` before its last `c`; absent when it has no `c`. -/
def before_last (c : Char) (l : List Char) : Option (List Char) :=
  (past c l.reverse).map List.reverse

/-- The structure of `apr_uri_parse_components` once scheme and hostinfo are stored. -/
def site_base (S HI : List Char) : apr_uri_components :=
  { zeroed with is_initialized := 1, scheme := some S, hostinfo := some HI }

/-- The structure after the user and password assignments of
`apr_uri_parse_components`, for host information `HI`. -/
def with_userinfo (HI : List Char) (u : apr_uri_components) : apr_uri_components :=
  match before_last '@' HI with
  | none => u
  | some UI => { u with user := some (upto ':' UI), password := past ':' UI }

/-- A byte that does not end the path: neither `?` nor `#`. -/
def is_path_byte (c : Char) : Bool := c != '?' && c != '#'

/-- A byte that does not end the host information: none of `/`, `?`, `#`. -/
def is_site_byte (c : Char) : Bool := c != '/' && c != '?' && c != '#'

/-- A byte that does not end the scheme: none of `:`, `/`, `?`, `#`. -/
def is_scheme_byte (c : Char) : Bool := c != ':' && c != '/' && c != '?' && c != '#'

/-- The structure after the query and fragment assignments of `deal_with_path`,
for the text `q` that follows the `?`. -/
def with_query (q : List Char) (u : apr_uri_components) : apr_uri_components :=
  match past '#' q with
  | some F => { u with fragment := some F, query := some (upto '#' q) }
  | none => { u with query := some q }

/-- The structure `deal_with_path` leaves, in terms of the text alone. -/
def path_result (uri : List Char) (u : apr_uri_components) : apr_uri_components :=
  match uri.dropWhile is_path_byte with
  | [] => with_path (uri.takeWhile is_path_byte) u
  | c :: r =>
    if c = '?' then with_query r (with_path (uri.takeWhile is_path_byte) u)
    else { with_path (uri.takeWhile is_path_byte) u with fragment := some r }

/-- The port text of a text `R` that follows `scheme://`: what stands between
the first `:` after the last `@` of the host information and the end of the
host information; absent when there is no such `:`. -/
def port_text (R : List Char) : Option (List Char) :=
  past ':' (after_last '@' (R.takeWhile is_site_byte))

/-- A structure whose every field is in use, as left by earlier calls. -/
def stale : apr_uri_components :=
  { scheme := some "ftp".toList, hostinfo := some "old:1".toList, user := some "u".toList,
    password := some "p".toList, hostname := some "old".toList, port_str := some "1".toList,
    path := some "/old".toList, query := some "q".toList, fragment := some "f".toList,
    hostent := some 7, port := 1, is_initialized := 0, dns_looked_up := 1, dns_resolved := 1 }

end AprUri

namespace AprXml

/-! ## `apr_xml.h`: text lists, namespace ids and the parsed tree -/

/-- The structure `apr_text_header`: the pieces of text of a list, first to last. -/
abbrev apr_text_header := List (List Char)

/-- Modelled from the spec: the function `apr_text_append`, declared in
`apr_xml.h` and defined outside the sources; the Text Fragment List is
append-only and keeps insertion order. -/
def apr_text_append (hdr : apr_text_header) (text : List Char) : apr_text_header :=
  hdr ++ [text]

def APR_XML_NS_DAV_ID : Int := 0
def APR_XML_NS_NONE : Int := -10
def APR_XML_NS_ERROR_BASE : Int := -100

/-- The test `APR_XML_NS_IS_ERROR(e)`. -/
def APR_XML_NS_IS_ERROR (e : Int) : Bool := decide (e ≤ APR_XML_NS_ERROR_BASE)

def APR_XML_X2T_FULL : Int := 0
def APR_XML_X2T_INNER : Int := 1
def APR_XML_X2T_LANG_INNER : Int := 2
def APR_XML_X2T_FULL_NS_LANG : Int := 3

/-- The structure `apr_xml_attr`; the `next` link is the tail of the list that holds it. -/
structure apr_xml_attr where
  name : List Char
  ns : Int
  value : List Char
  deriving DecidableEq, Repr

/-- A pointer `apr_xml_elem *`: null, or an element with its `first_child` and
`next` links.  The `parent` link is the nesting itself; `last_child` and
`ns_scope`, used only during parsing, live in the p. -/
inductive apr_xml_elem where
  | null
  | elem (name : List Char) (ns : Int) (lang : Option (List Char))
      (first_cdata following_cdata : apr_text_header) (attr : List apr_xml_attr)
      (first_child next : apr_xml_elem)
  deriving DecidableEq, Repr

/-- The structure `apr_xml_doc`. -/
structure apr_xml_doc where
  root : apr_xml_elem
  namespaces : List (List Char)
  deriving DecidableEq, Repr

/-! ## The namespace intern table -/

/-- Modelled from the spec: the namespace table at construction, which is not
part of the sources; index 0 is pre-seeded with the `DAV:` URI. -/
def new_namespaces : List (List Char) := ["DAV:".toList]

/-- The position of the first `uri` in the table. -/
def uri_index (uri : List Char) : List (List Char) → Option Nat
  | [] => none
  | u :: rest => if u = uri then some 0 else (uri_index uri rest).map (fun i => i + 1)

/-- Modelled from the spec: the function `apr_xml_insert_uri`, declared in
`apr_xml.h` and defined outside the sources; it returns the existing index of
`uri` if it was seen before (exact match), otherwise appends it and returns the
new index.  The result is the index and the table after the call. -/
def apr_xml_insert_uri (uri_array : List (List Char)) (uri : List Char) :
    Int × List (List Char) :=
  match uri_index uri uri_array with
  | some i => ((i : Int), uri_array)
  | none => ((uri_array.length : Int), uri_array ++ [uri])

/-- The tables reachable from construction by insertions. -/
inductive Reachable : List (List Char) → Prop where
  | init : Reachable new_namespaces
  | step (t : List (List Char)) (uri : List Char) :
      Reachable t → Reachable (apr_xml_insert_uri t uri).2

/-! ## Quoting -/

/-- The double quote byte. -/
def QUOT : Char := Char.ofNat 34

/-- Modelled from the spec: the function `apr_xml_quote_string`, declared in
`apr_xml.h` and defined outside the sources; every `<`, `>` and `&` is
replaced with its entity reference, and every double quote as well when
`quotes` is set. -/
def apr_xml_quote_string : List Char → Bool → List Char
  | [], _ => []
  | c :: s, quotes =>
    (if c = '<' then "&lt;".toList
     else if c = '>' then "&gt;".toList
     else if c = '&' then "&amp;".toList
     else if c = QUOT ∧ quotes = true then "&quot;".toList
     else [c]) ++ apr_xml_quote_string s quotes

/-! ## The tokenizer events and the parser state -/

/-- The events of the external tokenizer, and its terminal error signal. -/
inductive xml_event where
  | StartElement (name : List Char) (attrs : List (List Char × List Char))
  | EndElement
  | CharacterData (text : List Char)
  | TokenizerError
  deriving DecidableEq, Repr

/-- The error taxonomy of the p. -/
inductive xml_error where
  | SyntaxError
  | NamespaceError
  | IncompleteDocument
  | Rejected
  deriving DecidableEq, Repr

/-- What a scope frame maps a declared prefix to: a namespace id, or the
explicit "no namespace" marker of `xmlns=""`. -/
inductive ns_binding where
  | id (i : Int)
  | no_namespace
  deriving DecidableEq, Repr

/-- A scope frame: the declarations of one open element, the latest first; the
empty prefix stands for the default namespace. -/
abbrev ns_scope := List (List Char × ns_binding)

/-- An element under construction: its resolved name and attributes, the text
before its first child, its closed children, and its scope frame. -/
structure open_elem where
  name : List Char
  ns : Int
  lang : Option (List Char)
  attr : List apr_xml_attr
  first_cdata : apr_text_header
  children : apr_xml_elem
  scope : ns_scope
  deriving DecidableEq, Repr

/-- The states of the p. -/
inductive parser_state where
  | Idle
  | Feeding
  | Finished
  | Error
  deriving DecidableEq, Repr

/-- Modelled from the spec: the structure behind `apr_xml_parser`, opaque
in `apr_xml.h`: the state, the last error, the namespace table, the build stack
(innermost open element first) and the closed root element. -/
structure apr_xml_parser_st where
  state : parser_state
  error : Option xml_error
  namespaces : List (List Char)
  stack : List open_elem
  root : apr_xml_elem
  deriving DecidableEq, Repr

/-- Modelled from the spec: the function `apr_xml_parser_create`, defined outside the sources. -/
def apr_xml_parser_create : apr_xml_parser_st :=
  { state := parser_state.Idle, error := none, namespaces := new_namespaces,
    stack := [], root := apr_xml_elem.null }

/-! ## The namespace scope resolver -/

/-- The prefix of a name: the text before its first `:`, absent without one. -/
def name_pfx (name : List Char) : Option (List Char) :=
  if ':' ∈ name then some (name.takeWhile (fun c => c != ':')) else none

/-- The local part of a name: the text after its first `:`. -/
def name_local (name : List Char) : List Char :=
  (name.dropWhile (fun c => c != ':')).drop 1

/-- A prefix that starts with `xml` in any letter case. -/
def is_reserved (p : List Char) : Bool :=
  match p with
  | a :: b :: c :: _ => a.toLower = 'x' && b.toLower = 'm' && c.toLower = 'l'
  | _ => false

/-- The binding of prefix `p` in one frame. -/
def lookup_frame (p : List Char) : ns_scope → Option ns_binding
  | [] => none
  | (q, b) :: rest => if q = p then some b else lookup_frame p rest

/-- The binding of prefix `p` in a stack of frames, innermost first: a lookup
that misses in a frame goes on in the enclosing one. -/
def find_pfx (p : List Char) : List ns_scope → Option ns_binding
  | [] => none
  | f :: rest =>
    match lookup_frame p f with
    | some b => some b
    | none => find_pfx p rest

/-- The namespace id a binding stands for. -/
def binding_id : ns_binding → Int
  | ns_binding.id i => i
  | ns_binding.no_namespace => APR_XML_NS_NONE

/-- Modelled from the spec: the resolution of an element or attribute name
against the scope frames (the resolver is defined outside the sources).  An
explicit prefix must resolve to a declared namespace or the parse fails; no
prefix resolves via the default-namespace entry if present, else to "no
namespace"; a reserved `xml` prefix bypasses resolution and stays in the name. -/
def resolve_name (scopes : List ns_scope) (name : List Char) :
    Except xml_error (List Char × Int) :=
  match name_pfx name with
  | none =>
    match find_pfx [] scopes with
    | some b => Except.ok (name, binding_id b)
    | none => Except.ok (name, APR_XML_NS_NONE)
  | some p =>
    if is_reserved p then Except.ok (name, APR_XML_NS_NONE)
    else
      match find_pfx p scopes with
      | some b => Except.ok (name_local name, binding_id b)
      | none => Except.error xml_error.NamespaceError

/-- What the declaration pass over the attributes of a start tag produces. -/
structure decl_result where
  namespaces : List (List Char)
  scope : ns_scope
  lang : Option (List Char)
  rest : List (List Char × List Char)
  deriving DecidableEq, Repr

/-- The new frame entry, unless the prefix is already declared otherwise on this element. -/
def declare (p : List Char) (b : ns_binding) (scope : ns_scope) : Except xml_error ns_scope :=
  match lookup_frame p scope with
  | some b0 => if b0 = b then Except.ok scope else Except.error xml_error.NamespaceError
  | none => Except.ok ((p, b) :: scope)

/-- Modelled from the spec: the declaration pass of a start tag.  The `xmlns`
and `xmlns:p` attributes are consumed into the new frame (an empty `xmlns`
value is the "no namespace" marker, an empty `xmlns:p` value or a conflicting
redeclaration is a namespace error), an `xml:lang` attribute gives the
language, and the other attributes remain, in order. -/
def apply_decls (namespaces : List (List Char)) (scope : ns_scope) (lang : Option (List Char)) :
    List (List Char × List Char) → Except xml_error decl_result
  | [] => Except.ok { namespaces := namespaces, scope := scope, lang := lang, rest := [] }
  | (n, v) :: attrs =>
    if n = "xmlns".toList then
      if v = [] then
        match declare [] ns_binding.no_namespace scope with
        | Except.ok sc => apply_decls namespaces sc lang attrs
        | Except.error e => Except.error e
      else
        match declare [] (ns_binding.id (apr_xml_insert_uri namespaces v).1) scope with
        | Except.ok sc => apply_decls (apr_xml_insert_uri namespaces v).2 sc lang attrs
        | Except.error e => Except.error e
    else if name_pfx n = some "xmlns".toList then
      if v = [] then Except.error xml_error.NamespaceError
      else
        match declare (name_local n) (ns_binding.id (apr_xml_insert_uri namespaces v).1) scope with
        | Except.ok sc => apply_decls (apr_xml_insert_uri namespaces v).2 sc lang attrs
        | Except.error e => Except.error e
    else if n = "xml:lang".toList then apply_decls namespaces scope (some v) attrs
    else
      match apply_decls namespaces scope lang attrs with
      | Except.ok r => Except.ok { r with rest := (n, v) :: r.rest }
      | Except.error e => Except.error e

/-- The resolution of the attributes that remain after the declaration pass. -/
def resolve_attrs (scopes : List ns_scope) :
    List (List Char × List Char) → Except xml_error (List apr_xml_attr)
  | [] => Except.ok []
  | (n, v) :: attrs =>
    match resolve_name scopes n with
    | Except.error e => Except.error e
    | Except.ok (name, ns) =>
      match resolve_attrs scopes attrs with
      | Except.error e => Except.error e
      | Except.ok as => Except.ok ({ name := name, ns := ns, value := v } :: as)

/-! ## The tree builder -/

/-- The chain of siblings `first` with `e` linked after its last element. -/
def append_child : apr_xml_elem → apr_xml_elem → apr_xml_elem
  | apr_xml_elem.null, e => e
  | apr_xml_elem.elem n ns l fc fol a c next, e =>
    apr_xml_elem.elem n ns l fc fol a c (append_child next e)

/-- The chain of siblings with `text` appended to the `following_cdata` of its last element. -/
def append_following (text : List Char) : apr_xml_elem → apr_xml_elem
  | apr_xml_elem.null => apr_xml_elem.null
  | apr_xml_elem.elem n ns l fc fol a c next =>
    match next with
    | apr_xml_elem.null =>
      apr_xml_elem.elem n ns l fc (apr_text_append fol text) a c apr_xml_elem.null
    | apr_xml_elem.elem .. =>
      apr_xml_elem.elem n ns l fc fol a c (append_following text next)

/-- The parser in the `Error` state with the error recorded. -/
def fail (p : apr_xml_parser_st) (e : xml_error) : apr_xml_parser_st :=
  { p with state := parser_state.Error, error := some e }

/-- Modelled from the spec: the handling of one tokenizer event by the tree
builder, which is defined outside the sources.  A start tag pushes a scope
frame with the declarations of the element, resolves its name and attributes
and pushes the new element on the build stack; character data goes to the
`first_cdata` of the current element if it has no children yet, otherwise to
the `following_cdata` of its most recently closed child; an end tag pops the
frame and the build stack and links the closed element to its parent.  A
tokenizer error, or an event that the tokenizer cannot deliver at this point
(content outside the root element), is a syntax error. -/
def handle_event (p : apr_xml_parser_st) : xml_event → apr_xml_parser_st
  | xml_event.StartElement name attrs =>
    if p.stack = [] ∧ p.root ≠ apr_xml_elem.null then
      fail p xml_error.SyntaxError
    else
      match apply_decls p.namespaces [] none attrs with
      | Except.error e => fail p e
      | Except.ok d =>
        match resolve_name (d.scope :: p.stack.map open_elem.scope) name with
        | Except.error e => fail p e
        | Except.ok (n, ns) =>
          match resolve_attrs (d.scope :: p.stack.map open_elem.scope) d.rest with
          | Except.error e => fail p e
          | Except.ok as =>
            { p with
                namespaces := d.namespaces,
                stack := { name := n, ns := ns, lang := d.lang, attr := as, first_cdata := [],
                           children := apr_xml_elem.null, scope := d.scope } :: p.stack }
  | xml_event.CharacterData text =>
    match p.stack with
    | [] => fail p xml_error.SyntaxError
    | cur :: rest =>
      match cur.children with
      | apr_xml_elem.null =>
        { p with
            stack := { cur with first_cdata := apr_text_append cur.first_cdata text } :: rest }
      | apr_xml_elem.elem .. =>
        { p with
            stack := { cur with children := append_following text cur.children } :: rest }
  | xml_event.EndElement =>
    match p.stack with
    | [] => fail p xml_error.SyntaxError
    | cur :: rest =>
      match rest with
      | [] =>
        { p with
            stack := [],
            root := apr_xml_elem.elem cur.name cur.ns cur.lang cur.first_cdata [] cur.attr
                      cur.children apr_xml_elem.null }
      | parent :: outer =>
        { p with
            stack :=
              { parent with
                  children := append_child parent.children
                    (apr_xml_elem.elem cur.name cur.ns cur.lang cur.first_cdata [] cur.attr
                      cur.children apr_xml_elem.null) } :: outer }
  | xml_event.TokenizerError => fail p xml_error.SyntaxError

/-- The events of one chunk handled in order; nothing is handled after an error. -/
def handle_events (p : apr_xml_parser_st) : List xml_event → apr_xml_parser_st
  | [] => p
  | ev :: evs =>
    if p.state = parser_state.Error then p
    else handle_events (handle_event p ev) evs

/-- Modelled from the spec: the function `apr_xml_parser_feed`, declared in
`apr_xml.h` and defined outside the sources, on the events the tokenizer
yields for the bytes of the chunk.  `Idle` and `Feeding` accept the chunk; a
parser in `Error` rejects it with the recorded error, a finished one rejects
it.  The result is the error, if any, and the parser after the call. -/
def apr_xml_parser_feed (p : apr_xml_parser_st) (events : List xml_event) :
    Option xml_error × apr_xml_parser_st :=
  match p.state with
  | parser_state.Error => (p.error, p)
  | parser_state.Finished => (some xml_error.Rejected, p)
  | _ =>
    ((handle_events { p with state := parser_state.Feeding } events).error,
      handle_events { p with state := parser_state.Feeding } events)

/-- Modelled from the spec: the function `apr_xml_parser_done`, declared in
`apr_xml.h` and defined outside the sources.  With the build stack empty and a
root element produced it yields the document and the parser is finished; with
an element still open it fails with `IncompleteDocument`; in `Error` it
reports the recorded error; a second call fails. -/
def apr_xml_parser_done (p : apr_xml_parser_st) :
    Except xml_error apr_xml_doc × apr_xml_parser_st :=
  match p.state with
  | parser_state.Error => (Except.error (p.error.getD xml_error.SyntaxError), p)
  | parser_state.Finished => (Except.error xml_error.Rejected, p)
  | _ =>
    match p.stack with
    | _ :: _ =>
      (Except.error xml_error.IncompleteDocument, fail p xml_error.IncompleteDocument)
    | [] =>
      match p.root with
      | apr_xml_elem.null =>
        (Except.error xml_error.SyntaxError, fail p xml_error.SyntaxError)
      | apr_xml_elem.elem n ns l fc fol a c next =>
        (Except.ok { root := apr_xml_elem.elem n ns l fc fol a c next,
                     namespaces := p.namespaces },
         { p with state := parser_state.Finished })

/-- The parse of a whole document given as the events of its chunks: create,
feed every chunk in order, then finish. -/
def parse_chunks (chunks : List (List xml_event)) : Except xml_error apr_xml_doc :=
  (apr_xml_parser_done
    (chunks.foldl (fun q chunk => (apr_xml_parser_feed q chunk).2) apr_xml_parser_create)).1

/-! ## Vocabulary of the statements on the tree -/

/-- The content of a document in document order: tags without their names, and text. -/
inductive content_item where
  | open_tag
  | close_tag
  | text (t : List Char)
  deriving DecidableEq, Repr

/-- The content that a chain of elements stands for: for each element its start
tag, its `first_cdata`, its children, its end tag, and then its
`following_cdata`, before the next sibling. -/
def content_of_elem : apr_xml_elem → List content_item
  | apr_xml_elem.null => []
  | apr_xml_elem.elem _ _ _ fc fol _ c next =>
    content_item.open_tag :: (fc.map content_item.text ++ (content_of_elem c
      ++ content_item.close_tag :: (fol.map content_item.text ++ content_of_elem next)))

/-- The content that an event stands for. -/
def content_of_event : xml_event → List content_item
  | xml_event.StartElement _ _ => [content_item.open_tag]
  | xml_event.EndElement => [content_item.close_tag]
  | xml_event.CharacterData t => [content_item.text t]
  | xml_event.TokenizerError => []

/-- The content that a sequence of events stands for. -/
def content_of_events : List xml_event → List content_item
  | [] => []
  | ev :: evs => content_of_event ev ++ content_of_events evs

/-- The content that the events of a sequence of chunks stand for. -/
def content_of_chunks : List (List xml_event) → List content_item
  | [] => []
  | c :: cs => content_of_events c ++ content_of_chunks cs

/-- The content built so far for an open element. -/
def content_of_open (e : open_elem) : List content_item :=
  content_item.open_tag :: (e.first_cdata.map content_item.text ++ content_of_elem e.children)

/-- The content built so far for a build stack, innermost element first. -/
def content_of_stack : List open_elem → List content_item
  | [] => []
  | e :: rest => content_of_stack rest ++ content_of_open e

/-- The element that an end tag closes. -/
def closed_elem (cur : open_elem) : apr_xml_elem :=
  apr_xml_elem.elem cur.name cur.ns cur.lang cur.first_cdata [] cur.attr cur.children
    apr_xml_elem.null

/-- Every chunk of a sequence fed in order. -/
def feed_all (p : apr_xml_parser_st) (chunks : List (List xml_event)) : apr_xml_parser_st :=
  chunks.foldl (fun q chunk => (apr_xml_parser_feed q chunk).2) p

/-- The events of the document `<a:x xmlns:a="urn:a"><a:y>hi</a:y>tail</a:x>`. -/
def mixed_content_events : List xml_event :=
  [ xml_event.StartElement "a:x".toList [("xmlns:a".toList, "urn:a".toList)],
    xml_event.StartElement "a:y".toList [],
    xml_event.CharacterData "hi".toList,
    xml_event.EndElement,
    xml_event.CharacterData "tail".toList,
    xml_event.EndElement ]

/-- The events of the document `<xml:foo/>`. -/
def reserved_events : List xml_event :=
  [ xml_event.StartElement "xml:foo".toList [], xml_event.EndElement ]

/-- The document that `mixed_content_events` stands for. -/
def mixed_content_doc : apr_xml_doc :=
  { root :=
      apr_xml_elem.elem "x".toList 1 none [] [] []
        (apr_xml_elem.elem "y".toList 1 none ["hi".toList] ["tail".toList] []
          apr_xml_elem.null apr_xml_elem.null)
        apr_xml_elem.null,
    namespaces := ["DAV:".toList, "urn:a".toList] }

/-- The document that `reserved_events` stands for. -/
def reserved_doc : apr_xml_doc :=
  { root :=
      apr_xml_elem.elem "xml:foo".toList APR_XML_NS_NONE none [] [] [] apr_xml_elem.null
        apr_xml_elem.null,
    namespaces := ["DAV:".toList] }

/-- The scope frames of the open elements, innermost first. -/
def scopes_of (p : apr_xml_parser_st) : List ns_scope := p.stack.map open_elem.scope

/-- The content built so far by the parser: the closed root, or the build stack. -/
def content_of_builder (p : apr_xml_parser_st) : List content_item :=
  content_of_elem p.root ++ content_of_stack p.stack

/-- A root pointer as the builder leaves it: null, or a closed element without
text after its end tag and without sibling. -/
def root_closed (r : apr_xml_elem) : Prop :=
  r = apr_xml_elem.null
  ∨ ∃ n ns l fc a c, r = apr_xml_elem.elem n ns l fc [] a c apr_xml_elem.null

/-- The invariant of the builder: while an element is open there is no root
yet, and a root is a closed root. -/
def well_formed (p : apr_xml_parser_st) : Prop :=
  (p.stack ≠ [] → p.root = apr_xml_elem.null) ∧ root_closed p.root

/-! ## Vocabulary of the statements on lexical scoping -/

/-- The binding that a frame holds for a prefix declared with URI `v`. -/
def binding_for (namespaces : List (List Char)) (v : List Char) (ob : Option ns_binding) : Prop :=
  if v = [] then ob = some ns_binding.no_namespace
  else ∃ i : Nat, uri_index v namespaces = some i ∧ ob = some (ns_binding.id (i : Int))

/-- The entry that a frame holds for a prefix, given the URI that is declared
for the prefix, if any. -/
def frame_entry (namespaces : List (List Char)) (ov : Option (List Char))
    (ob : Option ns_binding) : Prop :=
  match ov with
  | none => ob = none
  | some v => binding_for namespaces v ob

/-- A table that keeps the indices of another. -/
def table_ext (s t : List (List Char)) : Prop :=
  ∀ v i, uri_index v s = some i → uri_index v t = some i

end AprXml

namespace AprUri

/-! ## Lemmas on the C library and the scanning loops -/

theorem delims_scheme (c : Char) :
    uri_delims c &&& NOTEND_SCHEME = 0 ↔ c ∉ [':', '/', '?', '#', NUL] := by
  unfold uri_delims
  split_ifs with h1 h2 h3 h4 h5
  · subst h1; decide
  · subst h2; decide
  · subst h3; decide
  · subst h4; decide
  · subst h5; decide
  · simp [h1, h2, h3, h4, h5]

theorem delims_hostinfo (c : Char) :
    uri_delims c &&& NOTEND_HOSTINFO = 0 ↔ c ∉ ['/', '?', '#', NUL] := by
  unfold uri_delims
  split_ifs with h1 h2 h3 h4 h5
  · subst h1; decide
  · subst h2; decide
  · subst h3; decide
  · subst h4; decide
  · subst h5; decide
  · simp [h2, h3, h4, h5]

theorem delims_path (c : Char) :
    uri_delims c &&& NOTEND_PATH = 0 ↔ c ∉ ['?', '#', NUL] := by
  unfold uri_delims
  split_ifs with h1 h2 h3 h4 h5
  · subst h1; decide
  · subst h2; decide
  · subst h3; decide
  · subst h4; decide
  · subst h5; decide
  · simp [h3, h4, h5]

theorem scan_split (mask : Nat) (A B : List Char)
    (hA : ∀ c ∈ A, uri_delims c &&& mask = 0)
    (hB : B = [] ∨ uri_delims (deref B) &&& mask ≠ 0) :
    scan mask (A ++ B) = B := by
  induction A with
  | nil =>
    cases B with
    | nil => rfl
    | cons b B =>
      rcases hB with hB | hB
      · cases hB
      · simp only [List.nil_append, scan]
        exact if_neg hB
  | cons a A ih =>
    have ha := hA a (List.mem_cons_self a A)
    simp only [List.cons_append, scan]
    rw [if_pos ha]
    exact ih (fun c hc => hA c (List.mem_cons_of_mem a hc))

theorem ptrdiff_append (A B : List Char) : ptrdiff B (A ++ B) = A.length := by
  simp [ptrdiff]

theorem apr_pstrdup_id (A : List Char) (h : NUL ∉ A) : apr_pstrdup A = A := by
  unfold apr_pstrdup
  induction A with
  | nil => rfl
  | cons a A ih =>
    have ha : a ≠ NUL := fun e => h (e ▸ List.mem_cons_self a A)
    have hA : NUL ∉ A := fun m => h (List.mem_cons_of_mem a m)
    rw [List.takeWhile_cons_of_pos (by simpa using ha), ih hA]

theorem apr_pstrndup_append (A B : List Char) (h : NUL ∉ A) :
    apr_pstrndup (A ++ B) A.length = A := by
  unfold apr_pstrndup
  rw [List.take_left]
  exact apr_pstrdup_id A h

theorem memchr_found (c : Char) (A B : List Char) (n : Nat) (hA : c ∉ A)
    (hn : A.length < n) : memchr (A ++ c :: B) c n = some A.length := by
  induction A generalizing n with
  | nil =>
    cases n with
    | zero => cases hn
    | succ n => simp [memchr]
  | cons a A ih =>
    have ha : a ≠ c := fun e => hA (e ▸ List.mem_cons_self a A)
    have hA2 : c ∉ A := fun m => hA (List.mem_cons_of_mem a m)
    cases n with
    | zero => cases hn
    | succ n =>
      rw [List.cons_append, memchr, if_neg ha, ih n hA2 (by simpa using hn)]
      rfl

theorem memchr_none (c : Char) (A B : List Char) (hA : c ∉ A) :
    memchr (A ++ B) c A.length = none := by
  induction A with
  | nil => simp [memchr]
  | cons a A ih =>
    have ha : a ≠ c := fun e => hA (e ▸ List.mem_cons_self a A)
    have hA2 : c ∉ A := fun m => hA (List.mem_cons_of_mem a m)
    rw [List.cons_append, List.length_cons, memchr, if_neg ha, ih hA2]
    rfl

theorem strchr_found (c : Char) (A B : List Char) (hA : c ∉ A) (hN : NUL ∉ A) :
    strchr (A ++ c :: B) c = some A.length := by
  induction A with
  | nil => simp [strchr]
  | cons a A ih =>
    have ha : a ≠ c := fun e => hA (e ▸ List.mem_cons_self a A)
    have hA2 : c ∉ A := fun m => hA (List.mem_cons_of_mem a m)
    have hn : a ≠ NUL := fun e => hN (e ▸ List.mem_cons_self a A)
    have hN2 : NUL ∉ A := fun m => hN (List.mem_cons_of_mem a m)
    rw [List.cons_append, strchr, if_neg ha, if_neg hn, ih hA2 hN2]
    rfl

theorem strchr_none (c : Char) (A : List Char) (hA : c ∉ A) : strchr A c = none := by
  induction A with
  | nil => rfl
  | cons a A ih =>
    have ha : a ≠ c := fun e => hA (e ▸ List.mem_cons_self a A)
    have hA2 : c ∉ A := fun m => hA (List.mem_cons_of_mem a m)
    rw [strchr, if_neg ha, ih hA2]
    split <;> rfl

theorem deref_drop_mem (B R : List Char) (m : Nat) (hm : m < B.length) :
    deref ((B ++ R).drop m) ∈ B := by
  induction B generalizing m with
  | nil => cases hm
  | cons b B ih =>
    cases m with
    | zero => simp [deref]
    | succ m =>
      simp only [List.cons_append, List.drop_succ_cons]
      exact List.mem_cons_of_mem b (ih m (by simpa using hm))

theorem last_at_none (B R : List Char) (hB : '@' ∉ B) (m : Nat) (hm : m ≤ B.length) :
    last_at (B ++ R) m = none := by
  induction m with
  | zero => rfl
  | succ m ih =>
    have h1 : deref ((B ++ R).drop m) ≠ '@' := fun e =>
      hB (e ▸ deref_drop_mem B R m hm)
    simp only [last_at]
    rw [if_neg h1]
    exact ih (Nat.le_of_succ_le hm)

theorem last_at_found (A B R : List Char) (hB : '@' ∉ B) (m : Nat) (hm : m ≤ B.length) :
    last_at (A ++ '@' :: (B ++ R)) (A.length + 1 + m) = some A.length := by
  induction m with
  | zero =>
    simp only [Nat.add_zero, last_at]
    rw [List.drop_left]
    simp [deref]
  | succ m ih =>
    have e1 : (A ++ '@' :: (B ++ R)).drop (A.length + 1 + m) = (B ++ R).drop m := by
      rw [Nat.add_assoc, List.drop_append]
      rw [Nat.add_comm 1 m, List.drop_succ_cons]
    have h1 : deref ((A ++ '@' :: (B ++ R)).drop (A.length + 1 + m)) ≠ '@' := by
      rw [e1]
      exact fun e => hB (e ▸ deref_drop_mem B R m hm)
    show last_at _ ((A.length + 1 + m) + 1) = _
    simp only [last_at]
    rw [if_neg h1]
    exact ih (Nat.le_of_succ_le hm)

theorem strtol_digits_snd (acc : Nat) (s : List Char) :
    (strtol_digits acc s).2 = s.dropWhile isdigit := by
  induction s generalizing acc with
  | nil => rfl
  | cons c s ih =>
    rw [strtol_digits]
    by_cases h : isdigit c = true
    · rw [if_pos h, List.dropWhile_cons_of_pos h]
      exact ih _
    · rw [if_neg h, List.dropWhile_cons_of_neg h]

theorem strtol_digits_fst (acc : Nat) (D R : List Char) (hD : ∀ c ∈ D, isdigit c = true)
    (hR : R = [] ∨ isdigit (deref R) = false) :
    (strtol_digits acc (D ++ R)).1 = D.foldl (fun a c => 10 * a + (c.toNat - 48)) acc := by
  induction D generalizing acc with
  | nil =>
    cases R with
    | nil => rfl
    | cons r R =>
      rcases hR with hR | hR
      · cases hR
      · have hr : ¬ (isdigit r = true) := by
          simpa [deref] using hR
        rw [List.nil_append, strtol_digits, if_neg hr]
        rfl
  | cons d D ih =>
    have hd := hD d (List.mem_cons_self d D)
    rw [List.cons_append, strtol_digits, if_pos hd, List.foldl_cons]
    exact ih _ (fun c hc => hD c (List.mem_cons_of_mem d hc))

theorem isdigit_not_space (c : Char) (h : isdigit c = true) : isspace c = false := by
  simp only [isdigit, Bool.and_eq_true, decide_eq_true_eq] at h
  simp only [isspace, Bool.or_eq_false_iff, decide_eq_false_iff_not, Bool.and_eq_false_iff]
  omega

theorem isdigit_not_sign (c : Char) (h : isdigit c = true) : c ≠ '-' ∧ c ≠ '+' := by
  constructor <;>
  · rintro rfl
    revert h
    decide

/-- On a text that starts with a digit, `strtol` reads the digit run. -/
theorem strtol_digit_head (d : Char) (s : List Char) (hd : isdigit d = true) :
    strtol (d :: s) =
      ((if ((strtol_digits 0 (d :: s)).1 : Int) > LONG_MAX then LONG_MAX
        else ((strtol_digits 0 (d :: s)).1 : Int)),
       (d :: s).dropWhile isdigit) := by
  have hs : (d :: s).dropWhile isspace = d :: s :=
    List.dropWhile_cons_of_neg (by simp [isdigit_not_space d hd])
  obtain ⟨h1, h2⟩ := isdigit_not_sign d hd
  unfold strtol
  simp only [hs, deref, h1, h2, or_self, if_false, hd, if_true]
  rw [strtol_digits_snd]
  have : ¬ (((strtol_digits 0 (d :: s)).1 : Int) < LONG_MIN) := by
    unfold LONG_MIN
    have : (0 : Int) ≤ ((strtol_digits 0 (d :: s)).1 : Int) := Int.ofNat_nonneg _
    omega
  simp only [this, if_false]

theorem strtol_digits_string (D : List Char) (hne : D ≠ []) (hD : ∀ c ∈ D, isdigit c = true) :
    strtol D =
      ((if (decimal_value D : Int) > LONG_MAX then LONG_MAX else (decimal_value D : Int)), []) := by
  cases D with
  | nil => exact absurd rfl hne
  | cons d s =>
    have hd := hD d (List.mem_cons_self d s)
    rw [strtol_digit_head d s hd]
    have e1 : (strtol_digits 0 (d :: s)).1 = decimal_value (d :: s) := by
      have := strtol_digits_fst 0 (d :: s) [] hD (Or.inl rfl)
      rwa [List.append_nil] at this
    have e2 : (d :: s).dropWhile isdigit = [] := by
      rw [List.dropWhile_eq_nil_iff]
      exact hD
    rw [e1, e2]

theorem to_port_long_to_int (v : Int) : to_port (long_to_int v) = to_port v := by
  unfold to_port long_to_int
  congr 1
  omega

theorem to_port_small (n : Nat) (h : n < 65536) : to_port (n : Int) = n := by
  unfold to_port
  omega

/-! ## Splitting a text at the first or the last occurrence of a byte -/

theorem upto_append (c : Char) (A B : List Char) (h : c ∉ A) : upto c (A ++ c :: B) = A := by
  unfold upto
  rw [List.takeWhile_append_of_pos, List.takeWhile_cons_of_neg (by simp), List.append_nil]
  intro a ha
  have : a ≠ c := fun e => h (e ▸ ha)
  simpa using this

theorem past_append (c : Char) (A B : List Char) (h : c ∉ A) :
    past c (A ++ c :: B) = some B := by
  unfold past
  rw [if_pos (by simp), List.dropWhile_append_of_pos, List.dropWhile_cons_of_neg (by simp)]
  · rfl
  · intro a ha
    have : a ≠ c := fun e => h (e ▸ ha)
    simpa using this

theorem upto_not_mem (c : Char) (l : List Char) (h : c ∉ l) : upto c l = l := by
  unfold upto
  rw [List.takeWhile_eq_self_iff]
  intro a ha
  have : a ≠ c := fun e => h (e ▸ ha)
  simpa using this

theorem past_not_mem (c : Char) (l : List Char) (h : c ∉ l) : past c l = none := by
  unfold past
  rw [if_neg h]

theorem upto_not_mem_self (c : Char) (l : List Char) : c ∉ upto c l := by
  unfold upto
  induction l with
  | nil => simp
  | cons a l ih =>
    by_cases h : a = c
    · rw [List.takeWhile_cons_of_neg (by simp [h])]
      simp
    · rw [List.takeWhile_cons_of_pos (by simpa using h)]
      intro hm
      rcases List.mem_cons.mp hm with e | hm
      · exact h e.symm
      · exact ih hm

/-- A text that contains `c` splits at its first `c`. -/
theorem split_first (c : Char) (l : List Char) (h : c ∈ l) :
    ∃ B, l = upto c l ++ c :: B ∧ past c l = some B := by
  induction l with
  | nil => cases h
  | cons a l ih =>
    by_cases e : a = c
    · subst e
      refine ⟨l, ?_, ?_⟩
      · unfold upto
        rw [List.takeWhile_cons_of_neg (by simp)]
        rfl
      · exact past_append a [] l (by simp)
    · have hl : c ∈ l := by
        rcases List.mem_cons.mp h with e2 | hl
        · exact absurd e2.symm e
        · exact hl
      obtain ⟨B, h1, h2⟩ := ih hl
      refine ⟨B, ?_, ?_⟩
      · unfold upto at h1 ⊢
        rw [List.takeWhile_cons_of_pos (by simpa using e), List.cons_append, ← h1]
      · unfold past at h2 ⊢
        rw [if_pos hl] at h2
        rw [if_pos h, List.dropWhile_cons_of_pos (by simpa using e)]
        exact h2

theorem after_last_append (c : Char) (A B : List Char) (h : c ∉ B) :
    after_last c (A ++ c :: B) = B := by
  unfold after_last
  rw [List.reverse_append, List.reverse_cons, List.append_assoc, List.singleton_append,
    upto_append c _ _ (by simpa using h), List.reverse_reverse]

theorem before_last_append (c : Char) (A B : List Char) (h : c ∉ B) :
    before_last c (A ++ c :: B) = some A := by
  unfold before_last
  rw [List.reverse_append, List.reverse_cons, List.append_assoc, List.singleton_append,
    past_append c _ _ (by simpa using h)]
  simp

theorem after_last_not_mem (c : Char) (l : List Char) (h : c ∉ l) : after_last c l = l := by
  unfold after_last
  rw [upto_not_mem c _ (by simpa using h), List.reverse_reverse]

theorem before_last_not_mem (c : Char) (l : List Char) (h : c ∉ l) :
    before_last c l = none := by
  unfold before_last
  rw [past_not_mem c _ (by simpa using h)]
  rfl

/-- A text that contains `c` splits at its last `c`. -/
theorem split_last (c : Char) (l : List Char) (h : c ∈ l) :
    ∃ A, l = A ++ c :: after_last c l ∧ before_last c l = some A ∧ c ∉ after_last c l := by
  obtain ⟨B, h1, _⟩ := split_first c l.reverse (by simpa using h)
  have hn : c ∉ (upto c l.reverse).reverse := by
    simpa using upto_not_mem_self c l.reverse
  have e : l = B.reverse ++ c :: (upto c l.reverse).reverse := by
    have := congrArg List.reverse h1
    simpa using this
  refine ⟨B.reverse, e, ?_, hn⟩
  have := before_last_append c B.reverse (upto c l.reverse).reverse hn
  rw [← e] at this
  exact this

/-! ## The labels of `apr_uri_parse_components` on split texts -/

theorem deal_with_path_core (P R : List Char) (u : apr_uri_components)
    (hP : noneOf ['?', '#', NUL] P)
    (hR : R = [] ∨ uri_delims (deref R) &&& NOTEND_PATH ≠ 0) :
    deal_with_path (P ++ R) u =
      if deref R = NUL then (APR_SUCCESS, with_path P u)
      else if deref R = '?' then
        match strchr (R.drop 1) '#' with
        | some j =>
          (APR_SUCCESS, { with_path P u with
              fragment := some (apr_pstrdup ((R.drop 1).drop (j + 1))),
              query := some (apr_pstrndup (R.drop 1) j) })
        | none => (APR_SUCCESS, { with_path P u with query := some (apr_pstrdup (R.drop 1)) })
      else (APR_SUCCESS, { with_path P u with fragment := some (apr_pstrdup (R.drop 1)) }) := by
  have hs : scan NOTEND_PATH (P ++ R) = R := by
    apply scan_split _ _ _ _ hR
    intro c hc
    rw [delims_path]
    intro hm
    exact hP c hm hc
  have hN : NUL ∉ P := hP NUL (by simp)
  have hu : (if ptrdiff R (P ++ R) ≠ 0 then
      { u with path := some (apr_pstrndup (P ++ R) (ptrdiff R (P ++ R))) } else u)
      = with_path P u := by
    rw [ptrdiff_append, apr_pstrndup_append P R hN]
    unfold with_path
    by_cases hp : P = []
    · simp [hp]
    · have : P.length ≠ 0 := by simpa using hp
      simp [hp, this]
  unfold deal_with_path
  simp only [hs, hu]

theorem deal_with_host_no_port (HP T : List Char) (u : apr_uri_components)
    (hc : ':' ∉ HP) (hN : NUL ∉ HP) :
    deal_with_host (HP ++ T) T u = deal_with_path T { u with hostname := some HP } := by
  unfold deal_with_host
  rw [ptrdiff_append, memchr_none ':' HP T hc]
  simp only [apr_pstrndup_append HP T hN]

theorem deal_with_host_port (Hn PT T : List Char) (u : apr_uri_components)
    (hc : ':' ∉ Hn) (hN : NUL ∉ Hn) (hNP : NUL ∉ PT) :
    deal_with_host (Hn ++ ':' :: (PT ++ T)) T u =
      if PT ≠ [] then
        if deref (strtol PT).2 = NUL then
          deal_with_path T { u with hostname := some Hn, port_str := some PT,
                                    port := to_port (long_to_int (strtol PT).1) }
        else
          (APR_EGENERAL, { u with hostname := some Hn, port_str := some PT,
                                  port := to_port (long_to_int (strtol PT).1) })
      else
        deal_with_path T { u with hostname := some Hn, port_str := some PT,
                                  port := apr_uri_default_port_for_scheme (u.scheme.getD []) } := by
  have e1 : ptrdiff T (Hn ++ ':' :: (PT ++ T)) = Hn.length + 1 + PT.length := by
    simp [ptrdiff]
    omega
  have e2 : memchr (Hn ++ ':' :: (PT ++ T)) ':' (Hn.length + 1 + PT.length) = some Hn.length :=
    memchr_found ':' Hn (PT ++ T) _ hc (by omega)
  have e3 : (Hn ++ ':' :: (PT ++ T)).drop (Hn.length + 1) = PT ++ T := by
    rw [← List.drop_drop, List.drop_left]
    rfl
  have e4 : ptrdiff T (PT ++ T) ≠ 0 ↔ PT ≠ [] := by
    rw [ptrdiff_append]
    simp
  unfold deal_with_host
  rw [e1, e2]
  simp only [e3, ptrdiff_append, apr_pstrndup_append Hn _ hN, apr_pstrndup_append PT T hNP]
  by_cases hp : PT = []
  · subst hp
    simp
  · have : PT.length ≠ 0 := by simpa using hp
    simp [hp, this]

theorem deref_append_ne_nil (A B : List Char) (h : A ≠ []) : deref (A ++ B) ∈ A := by
  cases A with
  | nil => exact absurd rfl h
  | cons a A => simp [deref]

theorem parse_scheme_core (S HI T : List Char) (u0 : apr_uri_components)
    (hS : S ≠ []) (hSd : noneOf [':', '/', '?', '#', NUL] S)
    (hHI : noneOf ['/', '?', '#', NUL] HI)
    (hT : T = [] ∨ uri_delims (deref T) &&& NOTEND_HOSTINFO ≠ 0) :
    apr_uri_parse_components (S ++ ':' :: '/' :: '/' :: (HI ++ T)) u0 =
      match last_at (HI ++ T) HI.length with
      | none => deal_with_host (HI ++ T) T (site_base S HI)
      | some k =>
        deal_with_host ((HI ++ T).drop (k + 1)) T
          (match memchr (HI ++ T) ':' k with
           | some j =>
             { site_base S HI with
                 user := some (apr_pstrndup (HI ++ T) j),
                 password := some (apr_pstrndup ((HI ++ T).drop (j + 1)) (k - (j + 1))) }
           | none => { site_base S HI with user := some (apr_pstrndup (HI ++ T) k) }) := by
  have h0 : deref (S ++ ':' :: '/' :: '/' :: (HI ++ T)) ≠ '/' := by
    intro e
    have := deref_append_ne_nil S (':' :: '/' :: '/' :: (HI ++ T)) hS
    rw [e] at this
    exact hSd '/' (by simp) this
  have h1 : scan NOTEND_SCHEME (S ++ ':' :: '/' :: '/' :: (HI ++ T))
      = ':' :: '/' :: '/' :: (HI ++ T) := by
    refine scan_split NOTEND_SCHEME S (':' :: '/' :: '/' :: (HI ++ T)) ?_
      (Or.inr (by show uri_delims ':' &&& NOTEND_SCHEME ≠ 0; decide))
    intro c hc
    rw [delims_scheme]
    exact fun hm => hSd c hm hc
  have h2 : scan NOTEND_HOSTINFO (HI ++ T) = T := by
    apply scan_split _ _ _ _ hT
    intro c hc
    rw [delims_hostinfo]
    exact fun hm => hHI c hm hc
  have h3 : ¬ (ptrdiff (':' :: '/' :: '/' :: (HI ++ T)) (S ++ ':' :: '/' :: '/' :: (HI ++ T)) = 0
      ∨ deref (':' :: '/' :: '/' :: (HI ++ T)) ≠ ':'
      ∨ deref ((':' :: '/' :: '/' :: (HI ++ T)).drop 1) ≠ '/'
      ∨ deref ((':' :: '/' :: '/' :: (HI ++ T)).drop 2) ≠ '/') := by
    rw [ptrdiff_append]
    have : S.length ≠ 0 := by simpa using hS
    simp [deref, this]
  have hNS : NUL ∉ S := hSd NUL (by simp)
  have hNH : NUL ∉ HI := hHI NUL (by simp)
  unfold apr_uri_parse_components
  simp only [if_neg h0, h1]
  rw [if_neg h3]
  simp only [ptrdiff_append, apr_pstrndup_append S _ hNS]
  simp only [List.drop_succ_cons, List.drop_zero, h2, ptrdiff_append,
    apr_pstrndup_append HI T hNH]
  rfl

theorem not_mem_append_left {c : Char} {A B : List Char} (h : c ∉ A ++ B) : c ∉ A :=
  fun m => h (List.mem_append_left B m)

theorem not_mem_append_cons_right {c d : Char} {A B : List Char} (h : c ∉ A ++ d :: B) : c ∉ B :=
  fun m => h (List.mem_append_right A (List.mem_cons_of_mem d m))

theorem deal_with_host_spec (HP T : List Char) (u : apr_uri_components) (hN : NUL ∉ HP) :
    deal_with_host (HP ++ T) T u =
      match past ':' HP with
      | none => deal_with_path T { u with hostname := some (upto ':' HP) }
      | some PT =>
        if PT ≠ [] then
          if deref (strtol PT).2 = NUL then
            deal_with_path T { u with hostname := some (upto ':' HP), port_str := some PT,
                                      port := to_port (long_to_int (strtol PT).1) }
          else
            (APR_EGENERAL, { u with hostname := some (upto ':' HP), port_str := some PT,
                                    port := to_port (long_to_int (strtol PT).1) })
        else
          deal_with_path T { u with hostname := some (upto ':' HP), port_str := some PT,
                                    port := apr_uri_default_port_for_scheme (u.scheme.getD []) }
    := by
  by_cases hc : ':' ∈ HP
  · obtain ⟨PT, e, hp⟩ := split_first ':' HP hc
    have hU : ':' ∉ upto ':' HP := upto_not_mem_self ':' HP
    rw [hp]
    generalize upto ':' HP = Hn at e hU ⊢
    subst e
    rw [List.append_assoc, List.cons_append]
    exact deal_with_host_port Hn PT T u hU (not_mem_append_left hN)
      (not_mem_append_cons_right hN)
  · rw [past_not_mem ':' HP hc, upto_not_mem ':' HP hc]
    exact deal_with_host_no_port HP T u hc hN

theorem parse_site (S HI T : List Char) (u0 : apr_uri_components)
    (hS : S ≠ []) (hSd : noneOf [':', '/', '?', '#', NUL] S)
    (hHI : noneOf ['/', '?', '#', NUL] HI)
    (hT : T = [] ∨ uri_delims (deref T) &&& NOTEND_HOSTINFO ≠ 0) :
    apr_uri_parse_components (S ++ ':' :: '/' :: '/' :: (HI ++ T)) u0 =
      deal_with_host (after_last '@' HI ++ T) T (with_userinfo HI (site_base S HI)) := by
  rw [parse_scheme_core S HI T u0 hS hSd hHI hT]
  have hNH : NUL ∉ HI := hHI NUL (by simp)
  by_cases h : '@' ∈ HI
  · obtain ⟨UI, e, hb, hn⟩ := split_last '@' HI h
    unfold with_userinfo
    rw [hb]
    generalize after_last '@' HI = HP at e hn ⊢
    have hNU : NUL ∉ UI := by
      rw [e] at hNH
      exact not_mem_append_left hNH
    have e1 : HI ++ T = UI ++ '@' :: (HP ++ T) := by
      rw [e]
      simp
    have e2 : HI.length = UI.length + 1 + HP.length := by
      rw [e]
      simp
      omega
    have e3 : (UI ++ '@' :: (HP ++ T)).drop (UI.length + 1) = HP ++ T := by
      rw [← List.drop_drop, List.drop_left]
      rfl
    rw [e1, e2, last_at_found UI HP T hn HP.length (Nat.le_refl _)]
    simp only [e3]
    by_cases hc : ':' ∈ UI
    · obtain ⟨P, e4, hp⟩ := split_first ':' UI hc
      have hU : ':' ∉ upto ':' UI := upto_not_mem_self ':' UI
      rw [hp]
      generalize upto ':' UI = U at e4 hU ⊢
      subst e4
      have e5 : (U ++ ':' :: P) ++ '@' :: (HP ++ T) = U ++ ':' :: (P ++ '@' :: (HP ++ T)) := by
        simp
      have e6 : (U ++ ':' :: P).length = U.length + 1 + P.length := by
        simp
        omega
      have e7 : (U ++ ':' :: (P ++ '@' :: (HP ++ T))).drop (U.length + 1)
          = P ++ '@' :: (HP ++ T) := by
        rw [← List.drop_drop, List.drop_left]
        rfl
      have e8 : U.length + 1 + P.length - (U.length + 1) = P.length := by omega
      rw [e5, e6, memchr_found ':' U _ _ hU (by omega)]
      simp only [e7, e8, apr_pstrndup_append U _ (not_mem_append_left hNU),
        apr_pstrndup_append P _ (not_mem_append_cons_right hNU)]
    · rw [memchr_none ':' UI _ hc, upto_not_mem ':' UI hc, past_not_mem ':' UI hc]
      simp only [apr_pstrndup_append UI _ hNU]
      rfl
  · rw [last_at_none HI T h HI.length (Nat.le_refl _)]
    unfold with_userinfo
    rw [before_last_not_mem '@' HI h, after_last_not_mem '@' HI h]

theorem mem_takeWhile_imp {p : Char → Bool} {l : List Char} {c : Char}
    (h : c ∈ l.takeWhile p) : p c = true ∧ c ∈ l := by
  induction l with
  | nil => simp at h
  | cons a l ih =>
    by_cases ha : p a = true
    · rw [List.takeWhile_cons_of_pos ha] at h
      rcases List.mem_cons.mp h with e | hm
      · subst e
        exact ⟨ha, List.mem_cons_self _ _⟩
      · exact ⟨(ih hm).1, List.mem_cons_of_mem a (ih hm).2⟩
    · rw [List.takeWhile_cons_of_neg ha] at h
      simp at h

theorem dropWhile_cases (p : Char → Bool) (l : List Char) :
    l.dropWhile p = [] ∨ ∃ c r, l.dropWhile p = c :: r ∧ p c = false ∧ c ∈ l := by
  induction l with
  | nil => left; rfl
  | cons a l ih =>
    by_cases ha : p a = true
    · rw [List.dropWhile_cons_of_pos ha]
      rcases ih with h | ⟨c, r, h1, h2, h3⟩
      · left; exact h
      · right; exact ⟨c, r, h1, h2, List.mem_cons_of_mem a h3⟩
    · rw [List.dropWhile_cons_of_neg ha]
      right
      exact ⟨a, l, rfl, by simpa using ha, List.mem_cons_self _ _⟩

theorem not_mem_of_suffix {c : Char} {A B l : List Char} (e : A ++ B = l) (h : c ∉ l) :
    c ∉ A ∧ c ∉ B := by
  subst e
  exact ⟨fun m => h (List.mem_append_left B m), fun m => h (List.mem_append_right A m)⟩

theorem deal_with_path_spec (uri : List Char) (u : apr_uri_components) (hN : NUL ∉ uri) :
    deal_with_path uri u = (APR_SUCCESS, path_result uri u) := by
  have e := List.takeWhile_append_dropWhile is_path_byte uri
  obtain ⟨hNP, hNR⟩ := not_mem_of_suffix e hN
  have hP : noneOf ['?', '#', NUL] (uri.takeWhile is_path_byte) := by
    intro c hc hm
    have h1 := (mem_takeWhile_imp hm).1
    simp only [List.mem_cons, List.mem_singleton, List.not_mem_nil, or_false] at hc
    rcases hc with rfl | rfl | rfl
    · revert h1; decide
    · revert h1; decide
    · exact hNP hm
  unfold path_result
  rcases dropWhile_cases is_path_byte uri with h | ⟨c, r, h1, h2, h3⟩
  · rw [h] at e ⊢
    have := deal_with_path_core (uri.takeWhile is_path_byte) [] u hP (Or.inl rfl)
    rw [e] at this
    rw [this]
    simp [deref]
  · rw [h1] at e hNR ⊢
    have hcN : c ≠ NUL := fun k => hN (k ▸ h3)
    have hd : uri_delims c &&& NOTEND_PATH ≠ 0 := by
      rw [Ne, delims_path]
      simp only [is_path_byte, Bool.and_eq_false_iff, bne_eq_false_iff_eq] at h2
      rcases h2 with h2 | h2 <;> simp [h2]
    have := deal_with_path_core (uri.takeWhile is_path_byte) (c :: r) u hP (Or.inr hd)
    rw [e] at this
    rw [this]
    have hr : NUL ∉ r := fun m => hNR (List.mem_cons_of_mem c m)
    simp only [deref, if_neg hcN, List.drop_succ_cons, List.drop_zero]
    by_cases hq : c = '?'
    · rw [if_pos hq, if_pos hq]
      unfold with_query
      by_cases hh : '#' ∈ r
      · obtain ⟨F, e2, hp⟩ := split_first '#' r hh
        have hU : '#' ∉ upto '#' r := upto_not_mem_self '#' r
        rw [hp]
        generalize upto '#' r = Q at e2 hU ⊢
        subst e2
        have e3 : (Q ++ '#' :: F).drop (Q.length + 1) = F := by
          rw [← List.drop_drop, List.drop_left]
          rfl
        rw [strchr_found '#' Q F hU (not_mem_append_left hr)]
        simp only [e3, apr_pstrndup_append Q _ (not_mem_append_left hr),
          apr_pstrdup_id F (not_mem_append_cons_right hr)]
      · rw [strchr_none '#' r hh, past_not_mem '#' r hh]
        simp only [apr_pstrdup_id r hr]
    · rw [if_neg hq, if_neg hq, apr_pstrdup_id r hr]

theorem path_result_keeps (uri : List Char) (u : apr_uri_components) :
    (path_result uri u).scheme = u.scheme ∧ (path_result uri u).hostinfo = u.hostinfo
    ∧ (path_result uri u).user = u.user ∧ (path_result uri u).password = u.password
    ∧ (path_result uri u).hostname = u.hostname ∧ (path_result uri u).port_str = u.port_str
    ∧ (path_result uri u).port = u.port
    ∧ (path_result uri u).path = (with_path (uri.takeWhile is_path_byte) u).path := by
  unfold path_result with_query with_path
  split
  · split <;> simp
  · split
    · split <;> split <;> simp
    · split <;> simp

theorem scan_scheme_eq (uri : List Char) (hN : NUL ∉ uri) :
    scan NOTEND_SCHEME uri = uri.dropWhile is_scheme_byte := by
  induction uri with
  | nil => rfl
  | cons a l ih =>
    have ha : a ≠ NUL := fun e => hN (e ▸ List.mem_cons_self a l)
    have hl : NUL ∉ l := fun m => hN (List.mem_cons_of_mem a m)
    have key : uri_delims a &&& NOTEND_SCHEME = 0 ↔ is_scheme_byte a = true := by
      rw [delims_scheme]
      simp [is_scheme_byte, ha, and_assoc]
    rw [scan]
    by_cases h : is_scheme_byte a = true
    · rw [if_pos (key.mpr h), List.dropWhile_cons_of_pos h, ih hl]
    · rw [if_neg (fun k => h (key.mp k)), List.dropWhile_cons_of_neg h]

theorem ptrdiff_dropWhile (p : Char → Bool) (l : List Char) :
    ptrdiff (l.dropWhile p) l = (l.takeWhile p).length := by
  have e := congrArg List.length (List.takeWhile_append_dropWhile p l)
  rw [List.length_append] at e
  unfold ptrdiff
  omega

/-- Without a non-empty scheme followed by `://` the whole text goes to `deal_with_path`. -/
theorem parse_no_scheme (uri : List Char) (u0 : apr_uri_components) (hN : NUL ∉ uri)
    (h : deref uri = '/' ∨ uri.takeWhile is_scheme_byte = []
      ∨ ¬ ([':', '/', '/'] <+: uri.dropWhile is_scheme_byte)) :
    apr_uri_parse_components uri u0 = deal_with_path uri { zeroed with is_initialized := 1 } := by
  unfold apr_uri_parse_components
  by_cases h0 : deref uri = '/'
  · simp only [if_pos h0]
  · simp only [if_neg h0]
    rw [scan_scheme_eq uri hN, ptrdiff_dropWhile]
    rw [if_pos]
    rcases h with h | h | h
    · exact absurd h h0
    · left
      rw [h]
      rfl
    · right
      by_contra hc
      simp only [not_or, not_not] at hc
      apply h
      generalize uri.dropWhile is_scheme_byte = s at hc
      obtain ⟨h1, h2, h3⟩ := hc
      match s, h1, h2, h3 with
      | a :: b :: c :: r, h1, h2, h3 =>
        simp only [deref, List.drop_succ_cons, List.drop_zero] at h1 h2 h3
        subst h1 h2 h3
        exact ⟨r, rfl⟩
      | [a, b], h1, h2, h3 =>
        simp only [deref, List.drop_succ_cons, List.drop_zero] at h3
        exact absurd h3 (by decide)
      | [a], h1, h2, h3 =>
        simp only [deref, List.drop_succ_cons, List.drop_zero] at h2
        exact absurd h2 (by decide)
      | [], h1, h2, h3 =>
        simp only [deref] at h1
        exact absurd h1 (by decide)

theorem site_split (R : List Char) (hN : NUL ∉ R) :
    noneOf ['/', '?', '#', NUL] (R.takeWhile is_site_byte)
    ∧ (R.dropWhile is_site_byte = []
        ∨ uri_delims (deref (R.dropWhile is_site_byte)) &&& NOTEND_HOSTINFO ≠ 0) := by
  constructor
  · intro c hc hm
    obtain ⟨h1, h2⟩ := mem_takeWhile_imp hm
    simp only [List.mem_cons, List.mem_singleton, List.not_mem_nil, or_false] at hc
    rcases hc with rfl | rfl | rfl | rfl
    · exact absurd h1 (by decide)
    · exact absurd h1 (by decide)
    · exact absurd h1 (by decide)
    · exact hN h2
  · rcases dropWhile_cases is_site_byte R with h | ⟨c, r, h1, h2, _⟩
    · left; exact h
    · right
      rw [h1, Ne, delims_hostinfo]
      simp only [is_site_byte, Bool.and_eq_false_iff, bne_eq_false_iff_eq] at h2
      rcases h2 with (h2 | h2) | h2 <;> simp [deref, h2]

theorem noneOf_scheme_nul (S : List Char) (h : noneOf [':', '/', '?', '#'] S) (hN : NUL ∉ S) :
    noneOf [':', '/', '?', '#', NUL] S := by
  intro c hc hm
  simp only [List.mem_cons, List.mem_singleton, List.not_mem_nil, or_false] at hc
  rcases hc with rfl | rfl | rfl | rfl | rfl
  · exact h _ (by simp) hm
  · exact h _ (by simp) hm
  · exact h _ (by simp) hm
  · exact h _ (by simp) hm
  · exact hN hm

/-- The parse of a text with a non-empty scheme followed by `://`, in terms of
the host information and what follows it. -/
theorem parse_site_text (S R : List Char) (u0 : apr_uri_components)
    (hS : S ≠ []) (hSd : noneOf [':', '/', '?', '#'] S) (hNS : NUL ∉ S) (hNR : NUL ∉ R) :
    apr_uri_parse_components (S ++ ':' :: '/' :: '/' :: R) u0 =
      deal_with_host (after_last '@' (R.takeWhile is_site_byte) ++ R.dropWhile is_site_byte)
        (R.dropWhile is_site_byte)
        (with_userinfo (R.takeWhile is_site_byte) (site_base S (R.takeWhile is_site_byte))) := by
  obtain ⟨h1, h2⟩ := site_split R hNR
  have := parse_site S (R.takeWhile is_site_byte) (R.dropWhile is_site_byte) u0 hS
    (noneOf_scheme_nul S hSd hNS) h1 h2
  rw [List.takeWhile_append_dropWhile] at this
  exact this

theorem deal_with_host_fields (HP T : List Char) (u : apr_uri_components)
    (hN : NUL ∉ HP) (hT : NUL ∉ T) :
    (deal_with_host (HP ++ T) T u).2.scheme = u.scheme
    ∧ (deal_with_host (HP ++ T) T u).2.hostinfo = u.hostinfo
    ∧ (deal_with_host (HP ++ T) T u).2.user = u.user
    ∧ (deal_with_host (HP ++ T) T u).2.password = u.password
    ∧ (deal_with_host (HP ++ T) T u).2.hostname = some (upto ':' HP)
    ∧ (deal_with_host (HP ++ T) T u).2.port_str =
        (match past ':' HP with
         | some PT => some PT
         | none => u.port_str)
    ∧ (deal_with_host (HP ++ T) T u).1 =
        (match past ':' HP with
         | some PT => if PT ≠ [] ∧ deref (strtol PT).2 ≠ NUL then APR_EGENERAL else APR_SUCCESS
         | none => APR_SUCCESS) := by
  rw [deal_with_host_spec HP T u hN]
  cases hp : past ':' HP with
  | none =>
    dsimp only
    rw [deal_with_path_spec T _ hT]
    obtain ⟨k1, k2, k3, k4, k5, k6, _, _⟩ :=
      path_result_keeps T { u with hostname := some (upto ':' HP) }
    exact ⟨k1, k2, k3, k4, k5, k6, rfl⟩
  | some PT =>
    dsimp only
    by_cases hne : PT = []
    · have h1 : ¬ (PT ≠ []) := fun k => k hne
      have h2 : ¬ (PT ≠ [] ∧ deref (strtol PT).2 ≠ NUL) := fun k => k.1 hne
      rw [if_neg h1, if_neg h2, deal_with_path_spec T _ hT]
      obtain ⟨k1, k2, k3, k4, k5, k6, _, _⟩ :=
        path_result_keeps T
          { u with hostname := some (upto ':' HP), port_str := some PT,
                   port := apr_uri_default_port_for_scheme (u.scheme.getD []) }
      exact ⟨k1, k2, k3, k4, k5, k6, rfl⟩
    · by_cases hd : deref (strtol PT).2 = NUL
      · have h2 : ¬ (PT ≠ [] ∧ deref (strtol PT).2 ≠ NUL) := fun k => k.2 hd
        rw [if_pos hne, if_pos hd, if_neg h2, deal_with_path_spec T _ hT]
        obtain ⟨k1, k2, k3, k4, k5, k6, _, _⟩ :=
          path_result_keeps T
            { u with hostname := some (upto ':' HP), port_str := some PT,
                     port := to_port (long_to_int (strtol PT).1) }
        exact ⟨k1, k2, k3, k4, k5, k6, rfl⟩
      · have h2 : PT ≠ [] ∧ deref (strtol PT).2 ≠ NUL := ⟨hne, hd⟩
        rw [if_pos hne, if_neg hd, if_pos h2]
        exact ⟨rfl, rfl, rfl, rfl, rfl, rfl, rfl⟩

/-! ## The claims -/

theorem isdigit_eq (c : Char) : isdigit c = c.isDigit := by
  unfold isdigit Char.isDigit Char.toNat
  rw [Bool.eq_iff_iff]
  simp only [Bool.and_eq_true, decide_eq_true_eq, ge_iff_le, UInt32.le_def, Fin.le_def]
  rfl

theorem digits_free_of (c : Char) (D : List Char) (hD : ∀ d ∈ D, d.isDigit = true)
    (hc : c.isDigit = false) : c ∉ D := by
  intro hm
  rw [hD c hm] at hc
  cases hc

theorem takeWhile_stop (p : Char → Bool) (A : List Char) (c : Char) (B : List Char)
    (hA : ∀ a ∈ A, p a = true) (hc : p c = false) :
    (A ++ c :: B).takeWhile p = A ∧ (A ++ c :: B).dropWhile p = c :: B := by
  rw [List.takeWhile_append_of_pos hA, List.dropWhile_append_of_pos hA,
    List.takeWhile_cons_of_neg (by simp [hc]), List.dropWhile_cons_of_neg (by simp [hc])]
  simp

/-- C1: a full URI `S://U:P@H:D PATH?Q#F` is split into its documented fields, and
the call returns `APR_SUCCESS`. -/
theorem parse_components_full_uri (S U P H D PATH Q F uri : List Char)
    (u0 : apr_uri_components)
    (huri : uri = S ++ "://".toList ++ U ++ ":".toList ++ P ++ "@".toList ++ H
      ++ ":".toList ++ D ++ PATH ++ "?".toList ++ Q ++ "#".toList ++ F)
    (hnul : NUL ∉ uri)
    (hS : S ≠ []) (hSd : noneOf [':', '/', '?', '#'] S)
    (hU : noneOf [':', '@', '/', '?', '#'] U)
    (hP : noneOf ['/', '?', '#'] P)
    (hH : noneOf [':', '@', '/', '?', '#'] H)
    (hD : D ≠ []) (hDd : ∀ c ∈ D, c.isDigit = true) (hDv : decimal_value D < 65536)
    (hPATH : PATH.head? = some '/') (hPATHd : noneOf ['?', '#'] PATH)
    (hQ : noneOf ['#'] Q) :
    (apr_uri_parse_components uri u0).1 = APR_SUCCESS
    ∧ (apr_uri_parse_components uri u0).2.scheme = some S
    ∧ (apr_uri_parse_components uri u0).2.hostinfo
        = some (U ++ ":".toList ++ P ++ "@".toList ++ H ++ ":".toList ++ D)
    ∧ (apr_uri_parse_components uri u0).2.user = some U
    ∧ (apr_uri_parse_components uri u0).2.password = some P
    ∧ (apr_uri_parse_components uri u0).2.hostname = some H
    ∧ (apr_uri_parse_components uri u0).2.port_str = some D
    ∧ (apr_uri_parse_components uri u0).2.port = decimal_value D
    ∧ (apr_uri_parse_components uri u0).2.path = some PATH
    ∧ (apr_uri_parse_components uri u0).2.query = some Q
    ∧ (apr_uri_parse_components uri u0).2.fragment = some F := by
  -- the text in the shape the scanning lemmas expect
  have e : uri = S ++ ':' :: '/' :: '/' ::
      (((U ++ ':' :: P) ++ '@' :: (H ++ ':' :: D)) ++ (PATH ++ '?' :: (Q ++ '#' :: F))) := by
    rw [huri]
    simp [String.toList]
  have e' : U ++ ":".toList ++ P ++ "@".toList ++ H ++ ":".toList ++ D
      = (U ++ ':' :: P) ++ '@' :: (H ++ ':' :: D) := by
    simp [String.toList]
  rw [e']
  rw [e] at hnul ⊢
  clear e e' huri
  -- NUL-freeness of the parts
  have n1 : NUL ∉ S := not_mem_append_left hnul
  have n2 : NUL ∉ ((U ++ ':' :: P) ++ '@' :: (H ++ ':' :: D))
      ++ (PATH ++ '?' :: (Q ++ '#' :: F)) := fun m =>
    hnul (List.mem_append_right _
      (List.mem_cons_of_mem _ (List.mem_cons_of_mem _ (List.mem_cons_of_mem _ m))))
  have n3 : NUL ∉ (U ++ ':' :: P) ++ '@' :: (H ++ ':' :: D) := not_mem_append_left n2
  have n4 : NUL ∉ PATH ++ '?' :: (Q ++ '#' :: F) := fun m => n2 (List.mem_append_right _ m)
  have n5 : NUL ∉ H ++ ':' :: D := not_mem_append_cons_right n3
  have n6 : NUL ∉ Q ++ '#' :: F := not_mem_append_cons_right n4
  -- the host information has no '/', '?', '#'
  have d1 : ∀ c, c.isDigit = false → c ∉ D := fun c hc => digits_free_of c D hDd hc
  have hHI : noneOf ['/', '?', '#', NUL] ((U ++ ':' :: P) ++ '@' :: (H ++ ':' :: D)) := by
    intro c hc hm
    simp only [List.mem_cons, List.mem_singleton, List.not_mem_nil, or_false] at hc
    simp only [List.mem_append, List.mem_cons] at hm
    rcases hc with rfl | rfl | rfl | rfl
    · rcases hm with (hm | hm | hm) | hm | hm | hm | hm
      · exact hU _ (by simp) hm
      · exact absurd hm (by decide)
      · exact hP _ (by simp) hm
      · exact absurd hm (by decide)
      · exact hH _ (by simp) hm
      · exact absurd hm (by decide)
      · exact d1 _ (by decide) hm
    · rcases hm with (hm | hm | hm) | hm | hm | hm | hm
      · exact hU _ (by simp) hm
      · exact absurd hm (by decide)
      · exact hP _ (by simp) hm
      · exact absurd hm (by decide)
      · exact hH _ (by simp) hm
      · exact absurd hm (by decide)
      · exact d1 _ (by decide) hm
    · rcases hm with (hm | hm | hm) | hm | hm | hm | hm
      · exact hU _ (by simp) hm
      · exact absurd hm (by decide)
      · exact hP _ (by simp) hm
      · exact absurd hm (by decide)
      · exact hH _ (by simp) hm
      · exact absurd hm (by decide)
      · exact d1 _ (by decide) hm
    · exact n3 (by simpa only [List.mem_append, List.mem_cons] using hm)
  -- what follows the host information starts with '/'
  obtain ⟨PATH', rfl⟩ : ∃ t, PATH = '/' :: t := by
    cases PATH with
    | nil => simp at hPATH
    | cons a t =>
      simp only [List.head?_cons, Option.some.injEq] at hPATH
      exact ⟨t, by rw [hPATH]⟩
  have hT : ('/' :: PATH') ++ '?' :: (Q ++ '#' :: F) = []
      ∨ uri_delims (deref (('/' :: PATH') ++ '?' :: (Q ++ '#' :: F))) &&& NOTEND_HOSTINFO ≠ 0 :=
    Or.inr (by show uri_delims '/' &&& NOTEND_HOSTINFO ≠ 0; decide)
  rw [parse_site S _ _ u0 hS (noneOf_scheme_nul S hSd n1) hHI hT]
  -- the last '@' and the first ':' on either side of it
  have a1 : '@' ∉ H ++ ':' :: D := by
    intro hm
    rcases List.mem_append.mp hm with hm | hm
    · exact hH _ (by simp) hm
    · rcases List.mem_cons.mp hm with hm | hm
      · exact absurd hm (by decide)
      · exact d1 _ (by decide) hm
  have c1 : ':' ∉ U := hU _ (by simp)
  have c2 : ':' ∉ H := hH _ (by simp)
  rw [after_last_append '@' _ _ a1]
  unfold with_userinfo
  rw [before_last_append '@' _ _ a1]
  dsimp only
  rw [upto_append ':' U P c1, past_append ':' U P c1]
  -- host name and port
  obtain ⟨k1, k2, k3, k4, k5, k6, k7⟩ := deal_with_host_fields (H ++ ':' :: D)
    (('/' :: PATH') ++ '?' :: (Q ++ '#' :: F))
    { site_base S ((U ++ ':' :: P) ++ '@' :: (H ++ ':' :: D)) with
        user := some U, password := some P } n5 n4
  have hDd' : ∀ c ∈ D, isdigit c = true := fun c hc => by rw [isdigit_eq]; exact hDd c hc
  have hst : strtol D = ((decimal_value D : Int), []) := by
    rw [strtol_digits_string D hD hDd']
    have : ¬ ((decimal_value D : Int) > LONG_MAX) := by
      unfold LONG_MAX
      omega
    rw [if_neg this]
  rw [upto_append ':' H D c2] at k5
  rw [past_append ':' H D c2] at k6 k7
  dsimp only at k6 k7
  have hok : ¬ (D ≠ [] ∧ deref (strtol D).2 ≠ NUL) := by
    rw [hst]
    exact fun k => k.2 rfl
  rw [if_neg hok] at k7
  refine ⟨k7, k1, k2, k3, k4, k5, k6, ?_, ?_, ?_, ?_⟩
  all_goals
    rw [deal_with_host_spec _ _ _ n5, past_append ':' H D c2]
    dsimp only
    rw [if_pos hD, hst, if_pos (show deref ([] : List Char) = NUL from rfl),
      deal_with_path_spec _ _ n4]
  · rw [(path_result_keeps _ _).2.2.2.2.2.2.1]
    dsimp only
    rw [to_port_long_to_int, to_port_small _ hDv]
  all_goals
    have hp : ∀ a ∈ '/' :: PATH', is_path_byte a = true := by
      intro a ha
      have h1 : a ≠ '?' := fun k => hPATHd '?' (by simp) (k ▸ ha)
      have h2 : a ≠ '#' := fun k => hPATHd '#' (by simp) (k ▸ ha)
      simp [is_path_byte, h1, h2]
    obtain ⟨t1, t2⟩ := takeWhile_stop is_path_byte ('/' :: PATH') '?' (Q ++ '#' :: F) hp
      (by decide)
    have q1 : '#' ∉ Q := hQ _ (by simp)
    unfold path_result
    rw [t1, t2]
    dsimp only
    rw [if_pos rfl]
    unfold with_query
    rw [past_append '#' Q F q1, upto_append '#' Q F q1]
  simp [with_path]

/-- C1 at `http://user:pa@ss:w@www.example.com:8080/a/b?q=1#frag`. -/
theorem parse_components_full_uri_witness :
    (apr_uri_parse_components
        "http://user:pa@ss:w@www.example.com:8080/a/b?q=1#frag".toList zeroed).1 = APR_SUCCESS
    ∧ (apr_uri_parse_components
        "http://user:pa@ss:w@www.example.com:8080/a/b?q=1#frag".toList zeroed).2.password
        = some "pa@ss:w".toList
    ∧ (apr_uri_parse_components
        "http://user:pa@ss:w@www.example.com:8080/a/b?q=1#frag".toList zeroed).2.port
        = decimal_value "8080".toList
    ∧ (apr_uri_parse_components
        "http://user:pa@ss:w@www.example.com:8080/a/b?q=1#frag".toList zeroed).2.fragment
        = some "frag".toList := by
  have h := parse_components_full_uri "http".toList "user".toList "pa@ss:w".toList
    "www.example.com".toList "8080".toList "/a/b".toList "q=1".toList "frag".toList
    "http://user:pa@ss:w@www.example.com:8080/a/b?q=1#frag".toList zeroed
    (by decide) (by decide) (by decide) (by decide) (by decide) (by decide) (by decide)
    (by decide) (by decide) (by decide) (by decide) (by decide) (by decide)
  exact ⟨h.1, h.2.2.2.2.1, h.2.2.2.2.2.2.2.1, h.2.2.2.2.2.2.2.2.2.2⟩

/-- C2: on `http://www.example.com`, where only `scheme://host` is given, the call
returns `APR_SUCCESS` and leaves `path` null; it does not set it to `/`. -/
theorem parse_host_only_leaves_path_null :
    (apr_uri_parse_components "http://www.example.com".toList zeroed).1 = APR_SUCCESS
    ∧ (apr_uri_parse_components "http://www.example.com".toList zeroed).2.hostname
        = some "www.example.com".toList
    ∧ (apr_uri_parse_components "http://www.example.com".toList zeroed).2.path = none
    ∧ (apr_uri_parse_components "http://www.example.com".toList zeroed).2.path
        ≠ some "/".toList := by
  decide

theorem unparse_userinfo_masked (u : apr_uri_components) (pw : List Char) (flags : Nat)
    (h1 : flags &&& APR_URI_UNP_REVEALPASSWORD = 0)
    (h3 : flags &&& APR_URI_UNP_OMITPASSWORD = 0) (hp : u.password = some pw) :
    unparse_userinfo u flags =
      (if u.user ≠ none ∧ flags &&& APR_URI_UNP_OMITUSER = 0 then u.user.getD [] else [])
        ++ ":XXXXXXXX@".toList := by
  unfold unparse_userinfo
  rw [hp]
  cases hu : u.user with
  | none => simp [apr_pstrcat, h1, h3]
  | some us =>
    by_cases ho : flags &&& APR_URI_UNP_OMITUSER = 0
    · simp [apr_pstrcat, h1, h3, ho]
    · simp [apr_pstrcat, h1, h3, ho]

/-- C3: without `APR_URI_UNP_REVEALPASSWORD` the output does not depend on the
content of a present password; the `user:password@` string built for a
present, not omitted password is the user name, `:`, `XXXXXXXX` and `@`; and
when the site part is not omitted the output carries that string right after
`scheme://`. -/
theorem unparse_hides_password :
    (∀ (u : apr_uri_components) (pw1 pw2 : List Char) (flags : Nat),
      flags &&& APR_URI_UNP_REVEALPASSWORD = 0 →
      apr_uri_unparse_components { u with password := some pw1 } flags
        = apr_uri_unparse_components { u with password := some pw2 } flags)
    ∧ (∀ (u : apr_uri_components) (pw : List Char) (flags : Nat),
      flags &&& APR_URI_UNP_REVEALPASSWORD = 0 →
      flags &&& APR_URI_UNP_OMITPASSWORD = 0 →
      u.password = some pw →
      unparse_userinfo u flags =
        (if u.user ≠ none ∧ flags &&& APR_URI_UNP_OMITUSER = 0 then u.user.getD [] else [])
          ++ ":XXXXXXXX@".toList)
    ∧ (∀ (u : apr_uri_components) (pw : List Char) (flags : Nat),
      flags &&& APR_URI_UNP_REVEALPASSWORD = 0 →
      flags &&& APR_URI_UNP_OMITSITEPART = 0 →
      flags &&& APR_URI_UNP_OMITPASSWORD = 0 →
      u.password = some pw →
      (u.hostname ≠ none → u.scheme ≠ none) →
      ∃ post, apr_uri_unparse_components u flags =
        some ((match u.hostname with
               | some _ => u.scheme.getD [] ++ "://".toList
               | none => [])
              ++ (if u.user ≠ none ∧ flags &&& APR_URI_UNP_OMITUSER = 0 then u.user.getD [] else [])
              ++ ":XXXXXXXX@".toList ++ post)) := by
  refine ⟨?_, ?_, ?_⟩
  · intro u pw1 pw2 flags h
    simp [apr_uri_unparse_components, unparse_userinfo, is_default_port, h]
  · intro u pw flags h1 h3 hp
    exact unparse_userinfo_masked u pw flags h1 h3 hp
  · intro u pw flags h1 h2 h3 hp hs
    have hui := unparse_userinfo_masked u pw flags h1 h3 hp
    have hor : u.user ≠ none ∨ u.password ≠ none := Or.inr (by rw [hp]; simp)
    unfold apr_uri_unparse_components
    simp only [h2, if_true, if_pos hor, hui]
    cases hh : u.hostname with
    | none =>
      by_cases hq : flags &&& APR_URI_UNP_OMITPATHINFO = 0
      · simp only [hq, if_true, apr_pstrcat]
        exact ⟨_, rfl⟩
      · simp only [hq, if_false]
        exact ⟨[], by simp⟩
    | some hn =>
      obtain ⟨sch, hsch⟩ : ∃ sch, u.scheme = some sch := by
        cases hsc : u.scheme with
        | none => exact absurd hsc (hs (by rw [hh]; simp))
        | some sch => exact ⟨sch, rfl⟩
      have hd : ∃ d, is_default_port u = some d := by
        unfold is_default_port
        rw [hsch]
        split_ifs
        · exact ⟨_, rfl⟩
        · exact ⟨_, rfl⟩
      obtain ⟨d, hd⟩ := hd
      simp only [hd, hsch, Option.getD_some]
      by_cases hq : flags &&& APR_URI_UNP_OMITPATHINFO = 0
      · cases d
        · cases hps : u.port_str with
          | none =>
            simp only [hq, if_true, apr_pstrcat, List.append_assoc, Bool.false_eq_true,
              if_false, List.append_nil]
            exact ⟨_, rfl⟩
          | some ps =>
            simp only [hq, if_true, apr_pstrcat, List.append_assoc, Bool.false_eq_true,
              if_false, List.append_nil]
            exact ⟨_, rfl⟩
        · simp only [hq, if_true, apr_pstrcat, List.append_assoc, List.append_nil]
          exact ⟨_, rfl⟩
      · cases d
        · cases hps : u.port_str with
          | none =>
            simp only [hq, if_false, apr_pstrcat, List.append_assoc, Bool.false_eq_true,
              List.append_nil]
            exact ⟨_, rfl⟩
          | some ps =>
            simp only [hq, if_false, apr_pstrcat, List.append_assoc, Bool.false_eq_true,
              List.append_nil]
            exact ⟨_, rfl⟩
        · simp only [hq, if_false, if_true, apr_pstrcat, List.append_assoc, List.append_nil]
          exact ⟨_, rfl⟩

/-- C3 at `http://joe:...@h` with flags 0: two passwords give the same output,
and that output shows `XXXXXXXX`. -/
theorem unparse_hides_password_witness :
    apr_uri_unparse_components
        { { zeroed with scheme := some "http".toList, user := some "joe".toList,
                        hostname := some "h".toList } with
          password := some "secret".toList } 0
      = apr_uri_unparse_components
        { { zeroed with scheme := some "http".toList, user := some "joe".toList,
                        hostname := some "h".toList } with
          password := some "other".toList } 0
    ∧ apr_uri_unparse_components
        { { zeroed with scheme := some "http".toList, user := some "joe".toList,
                        hostname := some "h".toList } with
          password := some "secret".toList } 0
      = some "http://joe:XXXXXXXX@h".toList :=
  ⟨unparse_hides_password.1
      { zeroed with scheme := some "http".toList, user := some "joe".toList,
                    hostname := some "h".toList }
      "secret".toList "other".toList 0 (by decide),
    by decide⟩

theorem upto_past_join (c : Char) (l : List Char) :
    upto c l ++ (match past c l with
                 | some B => c :: B
                 | none => []) = l := by
  by_cases h : c ∈ l
  · obtain ⟨B, e, hp⟩ := split_first c l h
    rw [hp]
    exact e.symm
  · rw [past_not_mem c l h, upto_not_mem c l h]
    simp

theorem before_after_last_join (c : Char) (l : List Char) :
    (match before_last c l with
     | some A => A ++ [c]
     | none => []) ++ after_last c l = l := by
  by_cases h : c ∈ l
  · obtain ⟨A, e, hb, _⟩ := split_last c l h
    rw [hb]
    simp only [List.append_assoc, List.singleton_append]
    exact e.symm
  · rw [before_last_not_mem c l h, after_last_not_mem c l h]
    simp

theorem with_userinfo_fields (HI : List Char) (u : apr_uri_components) :
    (with_userinfo HI u).scheme = u.scheme
    ∧ (with_userinfo HI u).hostinfo = u.hostinfo
    ∧ (with_userinfo HI u).port_str = u.port_str
    ∧ (with_userinfo HI u).user =
        (match before_last '@' HI with
         | some UI => some (upto ':' UI)
         | none => u.user)
    ∧ (with_userinfo HI u).password =
        (match before_last '@' HI with
         | some UI => past ':' UI
         | none => u.password) := by
  unfold with_userinfo
  cases before_last '@' HI <;> exact ⟨rfl, rfl, rfl, rfl, rfl⟩

/-- The fields that `apr_uri_parse_components` derives from the host information
`HI` of a text with a non-empty scheme followed by `://`, and its status. -/
theorem parse_site_fields (S R : List Char) (u0 : apr_uri_components)
    (hS : S ≠ []) (hSd : noneOf [':', '/', '?', '#'] S) (hNS : NUL ∉ S) (hNR : NUL ∉ R) :
    (apr_uri_parse_components (S ++ ':' :: '/' :: '/' :: R) u0).2.scheme = some S
    ∧ (apr_uri_parse_components (S ++ ':' :: '/' :: '/' :: R) u0).2.hostinfo
        = some (R.takeWhile is_site_byte)
    ∧ (apr_uri_parse_components (S ++ ':' :: '/' :: '/' :: R) u0).2.user
        = (before_last '@' (R.takeWhile is_site_byte)).map (upto ':')
    ∧ (apr_uri_parse_components (S ++ ':' :: '/' :: '/' :: R) u0).2.password
        = (before_last '@' (R.takeWhile is_site_byte)).bind (past ':')
    ∧ (apr_uri_parse_components (S ++ ':' :: '/' :: '/' :: R) u0).2.hostname
        = some (upto ':' (after_last '@' (R.takeWhile is_site_byte)))
    ∧ (apr_uri_parse_components (S ++ ':' :: '/' :: '/' :: R) u0).2.port_str
        = past ':' (after_last '@' (R.takeWhile is_site_byte))
    ∧ (apr_uri_parse_components (S ++ ':' :: '/' :: '/' :: R) u0).1
        = (match past ':' (after_last '@' (R.takeWhile is_site_byte)) with
           | some PT => if PT ≠ [] ∧ deref (strtol PT).2 ≠ NUL then APR_EGENERAL else APR_SUCCESS
           | none => APR_SUCCESS) := by
  rw [parse_site_text S R u0 hS hSd hNS hNR]
  have e := List.takeWhile_append_dropWhile is_site_byte R
  obtain ⟨n1, n2⟩ := not_mem_of_suffix e hNR
  have e2 := before_after_last_join '@' (R.takeWhile is_site_byte)
  have n3 : NUL ∉ after_last '@' (R.takeWhile is_site_byte) :=
    (not_mem_of_suffix e2 n1).2
  obtain ⟨k1, k2, k3, k4, k5, k6, k7⟩ :=
    deal_with_host_fields (after_last '@' (R.takeWhile is_site_byte))
      (R.dropWhile is_site_byte)
      (with_userinfo (R.takeWhile is_site_byte) (site_base S (R.takeWhile is_site_byte))) n3 n2
  obtain ⟨w1, w2, w3, w4, w5⟩ :=
    with_userinfo_fields (R.takeWhile is_site_byte) (site_base S (R.takeWhile is_site_byte))
  refine ⟨k1.trans w1, k2.trans w2, ?_, ?_, k5, ?_, k7⟩
  · rw [k3, w4]
    cases before_last '@' (R.takeWhile is_site_byte) <;> rfl
  · rw [k4, w5]
    cases before_last '@' (R.takeWhile is_site_byte) <;> rfl
  · rw [k6, w3]
    cases past ':' (after_last '@' (R.takeWhile is_site_byte)) <;> rfl

/-- C4: after a parse of a text that begins with a non-empty scheme followed by
`://`, `hostinfo` is the text between `://` and the first following `/`, `?`,
`#` or the end, and it is `[user[:password]@]hostname[:port_str]` of the
parsed fields, whatever the status. -/
theorem hostinfo_is_combination (S R : List Char) (u0 : apr_uri_components)
    (hS : S ≠ []) (hSd : noneOf [':', '/', '?', '#'] S)
    (hnul : NUL ∉ S ++ "://".toList ++ R) :
    (apr_uri_parse_components (S ++ "://".toList ++ R) u0).2.hostinfo
      = some (R.takeWhile is_site_byte)
    ∧ ∃ hostname,
      (apr_uri_parse_components (S ++ "://".toList ++ R) u0).2.hostname = some hostname
      ∧ (apr_uri_parse_components (S ++ "://".toList ++ R) u0).2.hostinfo
        = some ((match (apr_uri_parse_components (S ++ "://".toList ++ R) u0).2.user with
                 | some user =>
                   user
                   ++ (match (apr_uri_parse_components (S ++ "://".toList ++ R) u0).2.password with
                       | some password => ":".toList ++ password
                       | none => [])
                   ++ "@".toList
                 | none => [])
                ++ hostname
                ++ (match (apr_uri_parse_components (S ++ "://".toList ++ R) u0).2.port_str with
                    | some port_str => ":".toList ++ port_str
                    | none => [])) := by
  have e : S ++ "://".toList ++ R = S ++ ':' :: '/' :: '/' :: R := by
    simp [String.toList]
  rw [e] at hnul ⊢
  have hNS : NUL ∉ S := not_mem_append_left hnul
  have hNR : NUL ∉ R := fun m =>
    hnul (List.mem_append_right _
      (List.mem_cons_of_mem _ (List.mem_cons_of_mem _ (List.mem_cons_of_mem _ m))))
  obtain ⟨_, k2, k3, k4, k5, k6, _⟩ := parse_site_fields S R u0 hS hSd hNS hNR
  refine ⟨k2, _, k5, ?_⟩
  rw [k2, k3, k4, k6]
  congr 1
  have j1 := before_after_last_join '@' (R.takeWhile is_site_byte)
  have j2 := upto_past_join ':' (after_last '@' (R.takeWhile is_site_byte))
  generalize after_last '@' (R.takeWhile is_site_byte) = HP at j1 j2 ⊢
  cases hb : before_last '@' (R.takeWhile is_site_byte) with
  | none =>
    rw [hb] at j1
    simp only [Option.map_none', List.nil_append] at j1 ⊢
    rw [← j1]
    conv_lhs => rw [← j2]
    cases past ':' HP <;> simp [String.toList]
  | some UI =>
    rw [hb] at j1
    have j3 := upto_past_join ':' UI
    simp only [Option.map_some', Option.some_bind] at j1 ⊢
    rw [← j1]
    conv_lhs => rw [← j2, ← j3]
    cases past ':' HP <;> cases past ':' UI <;> simp [String.toList]

/-- C4 at `http://u:p@h:80x/path`, a text the parser rejects with `APR_EGENERAL`. -/
theorem hostinfo_is_combination_witness :
    (apr_uri_parse_components ("http".toList ++ "://".toList ++ "u:p@h:80x/path".toList)
        zeroed).2.hostinfo
      = some ("u:p@h:80x/path".toList.takeWhile is_site_byte)
    ∧ (apr_uri_parse_components ("http".toList ++ "://".toList ++ "u:p@h:80x/path".toList)
        zeroed).1 = APR_EGENERAL :=
  ⟨(hostinfo_is_combination "http".toList "u:p@h:80x/path".toList zeroed
      (by decide) (by decide) (by decide)).1, by decide⟩

theorem deref_eq_of_head (l : List Char) (c : Char) (h : l.head? = some c) : deref l = c := by
  cases l with
  | nil => simp at h
  | cons a t =>
    simp only [List.head?_cons, Option.some.injEq] at h
    exact h

/-- A text either lacks a non-empty scheme followed by `://`, or splits into one. -/
theorem scheme_cases (uri : List Char) :
    (deref uri = '/' ∨ uri.takeWhile is_scheme_byte = []
      ∨ ¬ ([':', '/', '/'] <+: uri.dropWhile is_scheme_byte))
    ∨ ∃ S R, uri = S ++ ':' :: '/' :: '/' :: R ∧ S ≠ [] ∧ noneOf [':', '/', '?', '#'] S
        ∧ S = uri.takeWhile is_scheme_byte := by
  by_cases h1 : uri.takeWhile is_scheme_byte = []
  · left; right; left; exact h1
  · by_cases h2 : [':', '/', '/'] <+: uri.dropWhile is_scheme_byte
    · right
      obtain ⟨R, hR⟩ := h2
      refine ⟨uri.takeWhile is_scheme_byte, R, ?_, h1, ?_, rfl⟩
      · have e := List.takeWhile_append_dropWhile is_scheme_byte uri
        rw [← hR] at e
        exact e.symm
      · intro c hc hm
        have hb := (mem_takeWhile_imp hm).1
        simp only [List.mem_cons, List.mem_singleton, List.not_mem_nil, or_false] at hc
        rcases hc with rfl | rfl | rfl | rfl <;> exact absurd hb (by decide)
    · left; right; right; exact h2

/-- C5: a text without a non-empty scheme followed by `://` is parsed as a path:
the call returns `APR_SUCCESS`, the site fields stay absent, `port` is 0, and
`path` is the longest prefix without `?` and `#`, absent when empty. -/
theorem parse_without_scheme (uri : List Char) (u0 : apr_uri_components)
    (hnul : NUL ∉ uri)
    (h : uri.head? = some '/' ∨ uri.takeWhile is_scheme_byte = []
      ∨ ¬ ("://".toList <+: uri.dropWhile is_scheme_byte)) :
    (apr_uri_parse_components uri u0).1 = APR_SUCCESS
    ∧ (apr_uri_parse_components uri u0).2.scheme = none
    ∧ (apr_uri_parse_components uri u0).2.hostinfo = none
    ∧ (apr_uri_parse_components uri u0).2.user = none
    ∧ (apr_uri_parse_components uri u0).2.password = none
    ∧ (apr_uri_parse_components uri u0).2.hostname = none
    ∧ (apr_uri_parse_components uri u0).2.port_str = none
    ∧ (apr_uri_parse_components uri u0).2.port = 0
    ∧ (apr_uri_parse_components uri u0).2.path =
        (if uri.takeWhile is_path_byte = [] then none
         else some (uri.takeWhile is_path_byte)) := by
  have h' : deref uri = '/' ∨ uri.takeWhile is_scheme_byte = []
      ∨ ¬ ([':', '/', '/'] <+: uri.dropWhile is_scheme_byte) := by
    rcases h with h | h | h
    · exact Or.inl (deref_eq_of_head uri '/' h)
    · exact Or.inr (Or.inl h)
    · exact Or.inr (Or.inr h)
  rw [parse_no_scheme uri u0 hnul h', deal_with_path_spec uri _ hnul]
  obtain ⟨k1, k2, k3, k4, k5, k6, k7, k8⟩ :=
    path_result_keeps uri { zeroed with is_initialized := 1 }
  refine ⟨rfl, k1, k2, k3, k4, k5, k6, k7, ?_⟩
  rw [k8]
  unfold with_path
  split_ifs <;> rfl

/-- C5 at `mailto:joe`, whose scheme-like prefix is not followed by `://`. -/
theorem parse_without_scheme_witness :
    (apr_uri_parse_components "mailto:joe".toList zeroed).1 = APR_SUCCESS
    ∧ (apr_uri_parse_components "mailto:joe".toList zeroed).2.scheme = none
    ∧ (apr_uri_parse_components "mailto:joe".toList zeroed).2.path
        = (if "mailto:joe".toList.takeWhile is_path_byte = [] then none
           else some ("mailto:joe".toList.takeWhile is_path_byte)) := by
  have h := parse_without_scheme "mailto:joe".toList zeroed (by decide)
    (Or.inr (Or.inr (by decide)))
  exact ⟨h.1, h.2.1, h.2.2.2.2.2.2.2.2⟩

/-- The label `deal_with_host` either rejects the port text or goes on to
`deal_with_path` with path, query and fragment untouched. -/
theorem deal_with_host_cases (HP T : List Char) (u : apr_uri_components) (hN : NUL ∉ HP) :
    (deal_with_host (HP ++ T) T u).1 = APR_EGENERAL
    ∨ ∃ u1, deal_with_host (HP ++ T) T u = deal_with_path T u1
        ∧ u1.path = u.path ∧ u1.query = u.query ∧ u1.fragment = u.fragment := by
  rw [deal_with_host_spec HP T u hN]
  cases past ':' HP with
  | none => exact Or.inr ⟨_, rfl, rfl, rfl, rfl⟩
  | some PT =>
    dsimp only
    by_cases hne : PT = []
    · have h1 : ¬ (PT ≠ []) := fun k => k hne
      rw [if_neg h1]
      exact Or.inr ⟨_, rfl, rfl, rfl, rfl⟩
    · rw [if_pos hne]
      by_cases hd : deref (strtol PT).2 = NUL
      · rw [if_pos hd]
        exact Or.inr ⟨_, rfl, rfl, rfl, rfl⟩
      · rw [if_neg hd]
        exact Or.inl rfl

theorem with_userinfo_rest (HI : List Char) (u : apr_uri_components) :
    (with_userinfo HI u).path = u.path ∧ (with_userinfo HI u).query = u.query
    ∧ (with_userinfo HI u).fragment = u.fragment ∧ (with_userinfo HI u).port = u.port
    ∧ (with_userinfo HI u).hostname = u.hostname := by
  unfold with_userinfo
  cases before_last '@' HI <;> exact ⟨rfl, rfl, rfl, rfl, rfl⟩

theorem path_result_query (A R T : List Char) (u : apr_uri_components)
    (hT : T.takeWhile is_path_byte = A) (hR : T.dropWhile is_path_byte = '?' :: R)
    (hp : u.path = none) (hf : u.fragment = none) :
    (path_result T u).query = some (upto '#' R)
    ∧ (path_result T u).fragment = past '#' R
    ∧ (path_result T u).path.getD [] = A := by
  unfold path_result
  rw [hT, hR]
  dsimp only
  rw [if_pos rfl]
  unfold with_query with_path
  by_cases hh : '#' ∈ R
  · obtain ⟨F, _, hF⟩ := split_first '#' R hh
    rw [hF]
    refine ⟨rfl, rfl, ?_⟩
    dsimp only
    split_ifs with hA
    · rw [hp, hA]
      rfl
    · rfl
  · rw [past_not_mem '#' R hh, upto_not_mem '#' R hh]
    refine ⟨rfl, ?_, ?_⟩
    · dsimp only
      split_ifs
      · exact hf
      · exact hf
    · dsimp only
      split_ifs with hA
      · rw [hp, hA]
        rfl
      · rfl

/-- C6: when the parse succeeds and the first `?` or `#` of the text is a `?`,
that is when the path part is followed by `?`, `query` is the text after that
`?` up to the first later `#` and `fragment` is the text after that `#`, absent
when there is none; the parsed path is the end of the text before the `?`; and
a text ending in that `?` has a present, empty query. -/
theorem query_and_fragment_split (uri A R : List Char) (u0 : apr_uri_components)
    (hnul : NUL ∉ uri)
    (huri : uri = A ++ "?".toList ++ R) (hA : noneOf ['?', '#'] A)
    (hok : (apr_uri_parse_components uri u0).1 = APR_SUCCESS) :
    (apr_uri_parse_components uri u0).2.query = some (upto '#' R)
    ∧ (apr_uri_parse_components uri u0).2.fragment = past '#' R
    ∧ (∃ pre, A = pre ++ (apr_uri_parse_components uri u0).2.path.getD [])
    ∧ (R = [] → (apr_uri_parse_components uri u0).2.query = some []) := by
  have e : uri = A ++ '?' :: R := by
    rw [huri]
    simp [String.toList]
  clear huri
  have hAp : ∀ a ∈ A, is_path_byte a = true := by
    intro a ha
    have h1 : a ≠ '?' := fun k => hA '?' (by simp) (k ▸ ha)
    have h2 : a ≠ '#' := fun k => hA '#' (by simp) (k ▸ ha)
    simp [is_path_byte, h1, h2]
  obtain ⟨t1, t2⟩ := takeWhile_stop is_path_byte A '?' R hAp (by decide)
  rw [← e] at t1 t2
  have main : (apr_uri_parse_components uri u0).2.query = some (upto '#' R)
      ∧ (apr_uri_parse_components uri u0).2.fragment = past '#' R
      ∧ (∃ pre, A = pre ++ (apr_uri_parse_components uri u0).2.path.getD []) := by
    rcases scheme_cases uri with h | ⟨S, R', e2, hS, hSd, _⟩
    · rw [parse_no_scheme uri u0 hnul h, deal_with_path_spec uri _ hnul]
      obtain ⟨q1, q2, q3⟩ := path_result_query A R uri { zeroed with is_initialized := 1 }
        t1 t2 rfl rfl
      exact ⟨q1, q2, [], by rw [q3]; rfl⟩
    · have hNS : NUL ∉ S := by
        rw [e2] at hnul
        exact not_mem_append_left hnul
      have hNR : NUL ∉ R' := by
        rw [e2] at hnul
        exact fun m => hnul (List.mem_append_right _
          (List.mem_cons_of_mem _ (List.mem_cons_of_mem _ (List.mem_cons_of_mem _ m))))
      have e3 := List.takeWhile_append_dropWhile is_site_byte R'
      obtain ⟨n1, n2⟩ := not_mem_of_suffix e3 hNR
      have e4 := before_after_last_join '@' (R'.takeWhile is_site_byte)
      have n3 : NUL ∉ after_last '@' (R'.takeWhile is_site_byte) :=
        (not_mem_of_suffix e4 n1).2
      -- everything before what follows the host information is free of '?' and '#'
      have hpre : ∀ a ∈ S ++ ':' :: '/' :: '/' :: R'.takeWhile is_site_byte,
          is_path_byte a = true := by
        intro a ha
        simp only [List.mem_append, List.mem_cons] at ha
        rcases ha with ha | ha | ha | ha | ha
        · have h1 : a ≠ '?' := fun k => hSd '?' (by simp) (k ▸ ha)
          have h2 : a ≠ '#' := fun k => hSd '#' (by simp) (k ▸ ha)
          simp [is_path_byte, h1, h2]
        · rw [ha]; decide
        · rw [ha]; decide
        · rw [ha]; decide
        · have hb := (mem_takeWhile_imp ha).1
          simp only [is_site_byte, Bool.and_eq_true, bne_iff_ne] at hb
          simp [is_path_byte, hb.1.2, hb.2]
      have e5 : uri = (S ++ ':' :: '/' :: '/' :: R'.takeWhile is_site_byte)
          ++ R'.dropWhile is_site_byte := by
        rw [e2]
        simp only [List.append_assoc, List.cons_append, e3]
      have t3 : (R'.dropWhile is_site_byte).dropWhile is_path_byte = '?' :: R := by
        rw [← t2]
        conv_rhs => rw [e5]
        rw [List.dropWhile_append_of_pos hpre]
      have t4 : A = (S ++ ':' :: '/' :: '/' :: R'.takeWhile is_site_byte)
          ++ (R'.dropWhile is_site_byte).takeWhile is_path_byte := by
        rw [← t1]
        conv_lhs => rw [e5]
        rw [List.takeWhile_append_of_pos hpre]
      rw [e2] at hok ⊢
      rw [parse_site_text S R' u0 hS hSd hNS hNR] at hok ⊢
      rcases deal_with_host_cases (after_last '@' (R'.takeWhile is_site_byte))
        (R'.dropWhile is_site_byte)
        (with_userinfo (R'.takeWhile is_site_byte) (site_base S (R'.takeWhile is_site_byte)))
        n3 with hbad | ⟨u1, hu1, p1, _, p3⟩
      · rw [hbad] at hok
        exact absurd hok (by decide)
      · rw [hu1, deal_with_path_spec _ _ n2]
        obtain ⟨w1, _, w3, _, _⟩ := with_userinfo_rest (R'.takeWhile is_site_byte)
          (site_base S (R'.takeWhile is_site_byte))
        obtain ⟨q1, q2, q3⟩ := path_result_query _ R (R'.dropWhile is_site_byte) u1 rfl t3
          (p1.trans w1) (p3.trans w3)
        refine ⟨q1, q2, S ++ ':' :: '/' :: '/' :: R'.takeWhile is_site_byte, ?_⟩
        rw [q3]
        exact t4
  refine ⟨main.1, main.2.1, main.2.2, ?_⟩
  intro hR
  rw [main.1, hR]
  rfl

/-- C6 at `http://h/p?a=1#f`. -/
theorem query_and_fragment_split_witness :
    (apr_uri_parse_components "http://h/p?a=1#f".toList zeroed).2.query
      = some (upto '#' "a=1#f".toList)
    ∧ (apr_uri_parse_components "http://h/p?a=1#f".toList zeroed).2.fragment
      = past '#' "a=1#f".toList := by
  have h := query_and_fragment_split "http://h/p?a=1#f".toList "http://h/p".toList
    "a=1#f".toList zeroed (by decide) (by decide) (by decide) (by decide)
  exact ⟨h.1, h.2.1⟩

theorem deal_with_host_port_field (HP T : List Char) (u : apr_uri_components)
    (hN : NUL ∉ HP) (hT : NUL ∉ T) :
    (deal_with_host (HP ++ T) T u).2.port =
      (match past ':' HP with
       | some PT =>
         if PT ≠ [] then to_port (long_to_int (strtol PT).1)
         else apr_uri_default_port_for_scheme (u.scheme.getD [])
       | none => u.port) := by
  rw [deal_with_host_spec HP T u hN]
  cases past ':' HP with
  | none =>
    dsimp only
    rw [deal_with_path_spec T _ hT, (path_result_keeps T _).2.2.2.2.2.2.1]
  | some PT =>
    dsimp only
    by_cases hne : PT = []
    · have h1 : ¬ (PT ≠ []) := fun k => k hne
      rw [if_neg h1, if_neg h1, deal_with_path_spec T _ hT,
        (path_result_keeps T _).2.2.2.2.2.2.1]
    · rw [if_pos hne, if_pos hne]
      by_cases hd : deref (strtol PT).2 = NUL
      · rw [if_pos hd, deal_with_path_spec T _ hT, (path_result_keeps T _).2.2.2.2.2.2.1]
      · rw [if_neg hd]

theorem site_tail_stops (T : List Char) (hT : ∀ c, T.head? = some c → is_site_byte c = false) :
    T = [] ∨ uri_delims (deref T) &&& NOTEND_HOSTINFO ≠ 0 := by
  cases T with
  | nil => exact Or.inl rfl
  | cons c t =>
    right
    have h2 := hT c rfl
    rw [Ne, delims_hostinfo]
    simp only [is_site_byte, Bool.and_eq_false_iff, bne_eq_false_iff_eq] at h2
    rcases h2 with (h2 | h2) | h2 <;> simp [deref, h2]

/-- C7: with host information `UI@HP`, where `HP` has no `@`, the text `UI` before
the last `@` is the user information: `user` is its part before the first `:`
and `password` all that follows that `:`, absent when `UI` has no `:`; host
name, port string and port come from `HP` alone, as in the parse of the same
text without `UI@`. -/
theorem userinfo_last_at_first_colon (S UI HP T : List Char) (u0 : apr_uri_components)
    (hS : S ≠ []) (hSd : noneOf [':', '/', '?', '#'] S)
    (hUI : noneOf ['/', '?', '#'] UI) (hHP : noneOf ['@', '/', '?', '#'] HP)
    (hT : ∀ c, T.head? = some c → is_site_byte c = false)
    (hnul : NUL ∉ S ++ "://".toList ++ UI ++ "@".toList ++ HP ++ T) :
    (apr_uri_parse_components (S ++ "://".toList ++ UI ++ "@".toList ++ HP ++ T) u0).2.user
      = some (upto ':' UI)
    ∧ (apr_uri_parse_components (S ++ "://".toList ++ UI ++ "@".toList ++ HP ++ T) u0).2.password
      = past ':' UI
    ∧ (':' ∉ UI →
        (apr_uri_parse_components (S ++ "://".toList ++ UI ++ "@".toList ++ HP ++ T) u0).2.user
          = some UI
        ∧ (apr_uri_parse_components
            (S ++ "://".toList ++ UI ++ "@".toList ++ HP ++ T) u0).2.password = none)
    ∧ (apr_uri_parse_components (S ++ "://".toList ++ UI ++ "@".toList ++ HP ++ T) u0).2.hostname
      = some (upto ':' HP)
    ∧ (apr_uri_parse_components (S ++ "://".toList ++ UI ++ "@".toList ++ HP ++ T) u0).2.port_str
      = past ':' HP
    ∧ (apr_uri_parse_components (S ++ "://".toList ++ UI ++ "@".toList ++ HP ++ T) u0).2.hostname
      = (apr_uri_parse_components (S ++ "://".toList ++ HP ++ T) u0).2.hostname
    ∧ (apr_uri_parse_components (S ++ "://".toList ++ UI ++ "@".toList ++ HP ++ T) u0).2.port_str
      = (apr_uri_parse_components (S ++ "://".toList ++ HP ++ T) u0).2.port_str
    ∧ (apr_uri_parse_components (S ++ "://".toList ++ UI ++ "@".toList ++ HP ++ T) u0).2.port
      = (apr_uri_parse_components (S ++ "://".toList ++ HP ++ T) u0).2.port := by
  have e1 : S ++ "://".toList ++ UI ++ "@".toList ++ HP ++ T
      = S ++ ':' :: '/' :: '/' :: ((UI ++ '@' :: HP) ++ T) := by
    simp [String.toList]
  have e2 : S ++ "://".toList ++ HP ++ T = S ++ ':' :: '/' :: '/' :: (HP ++ T) := by
    simp [String.toList]
  rw [e1] at hnul ⊢
  rw [e2]
  clear e1 e2
  have hNS : NUL ∉ S := not_mem_append_left hnul
  have n2 : NUL ∉ (UI ++ '@' :: HP) ++ T := fun m =>
    hnul (List.mem_append_right _
      (List.mem_cons_of_mem _ (List.mem_cons_of_mem _ (List.mem_cons_of_mem _ m))))
  have n3 : NUL ∉ UI ++ '@' :: HP := not_mem_append_left n2
  have n4 : NUL ∉ T := fun m => n2 (List.mem_append_right _ m)
  have n5 : NUL ∉ HP := not_mem_append_cons_right n3
  have hSd' := noneOf_scheme_nul S hSd hNS
  have hT' := site_tail_stops T hT
  have a1 : '@' ∉ HP := hHP _ (by simp)
  have hHP' : noneOf ['/', '?', '#', NUL] HP := by
    intro c hc hm
    simp only [List.mem_cons, List.mem_singleton, List.not_mem_nil, or_false] at hc
    rcases hc with rfl | rfl | rfl | rfl
    · exact hHP _ (by simp) hm
    · exact hHP _ (by simp) hm
    · exact hHP _ (by simp) hm
    · exact n5 hm
  have hHI : noneOf ['/', '?', '#', NUL] (UI ++ '@' :: HP) := by
    intro c hc hm
    rcases List.mem_append.mp hm with hm | hm
    · simp only [List.mem_cons, List.mem_singleton, List.not_mem_nil, or_false] at hc
      rcases hc with rfl | rfl | rfl | rfl
      · exact hUI _ (by simp) hm
      · exact hUI _ (by simp) hm
      · exact hUI _ (by simp) hm
      · exact not_mem_append_left n3 hm
    · rcases List.mem_cons.mp hm with hm | hm
      · subst hm
        exact absurd hc (by decide)
      · exact hHP' c hc hm
  rw [parse_site S (UI ++ '@' :: HP) T u0 hS hSd' hHI hT',
    parse_site S HP T u0 hS hSd' hHP' hT', after_last_append '@' UI HP a1,
    after_last_not_mem '@' HP a1]
  obtain ⟨_, _, k3, k4, k5, k6, _⟩ := deal_with_host_fields HP T
    (with_userinfo (UI ++ '@' :: HP) (site_base S (UI ++ '@' :: HP))) n5 n4
  obtain ⟨_, _, _, _, k5', k6', _⟩ := deal_with_host_fields HP T
    (with_userinfo HP (site_base S HP)) n5 n4
  have p := deal_with_host_port_field HP T
    (with_userinfo (UI ++ '@' :: HP) (site_base S (UI ++ '@' :: HP))) n5 n4
  have p' := deal_with_host_port_field HP T (with_userinfo HP (site_base S HP)) n5 n4
  obtain ⟨w1, _, w3, w4, w5⟩ := with_userinfo_fields (UI ++ '@' :: HP)
    (site_base S (UI ++ '@' :: HP))
  obtain ⟨w1', _, w3', _, _⟩ := with_userinfo_fields HP (site_base S HP)
  obtain ⟨_, _, _, w6, _⟩ := with_userinfo_rest (UI ++ '@' :: HP)
    (site_base S (UI ++ '@' :: HP))
  obtain ⟨_, _, _, w6', _⟩ := with_userinfo_rest HP (site_base S HP)
  rw [before_last_append '@' UI HP a1] at w4 w5
  dsimp only at w4 w5
  have hu := k3.trans w4
  have hp := k4.trans w5
  have hps : (deal_with_host (HP ++ T) T
      (with_userinfo (UI ++ '@' :: HP) (site_base S (UI ++ '@' :: HP)))).2.port_str
      = past ':' HP := by
    rw [k6, w3]
    cases past ':' HP <;> rfl
  have hps' : (deal_with_host (HP ++ T) T (with_userinfo HP (site_base S HP))).2.port_str
      = past ':' HP := by
    rw [k6', w3']
    cases past ':' HP <;> rfl
  refine ⟨hu, hp, ?_, k5, hps, k5.trans k5'.symm, hps.trans hps'.symm, ?_⟩
  · intro hc
    rw [hu, hp, upto_not_mem ':' UI hc, past_not_mem ':' UI hc]
    exact ⟨rfl, rfl⟩
  · rw [p, p', w1, w1', w6, w6']
    rfl

/-- C7 at `ftp://joe:a:b@c@ftp.example.org:2121/x`: the password keeps its `:` and `@`. -/
theorem userinfo_last_at_first_colon_witness :
    (apr_uri_parse_components
      ("ftp".toList ++ "://".toList ++ "joe:a:b@c".toList ++ "@".toList
        ++ "ftp.example.org:2121".toList ++ "/x".toList) zeroed).2.user
      = some (upto ':' "joe:a:b@c".toList)
    ∧ (apr_uri_parse_components
      ("ftp".toList ++ "://".toList ++ "joe:a:b@c".toList ++ "@".toList
        ++ "ftp.example.org:2121".toList ++ "/x".toList) zeroed).2.password
      = past ':' "joe:a:b@c".toList
    ∧ past ':' "joe:a:b@c".toList = some "a:b@c".toList := by
  have h := userinfo_last_at_first_colon "ftp".toList "joe:a:b@c".toList
    "ftp.example.org:2121".toList "/x".toList zeroed (by decide) (by decide) (by decide)
    (by decide) (by decide) (by decide)
  exact ⟨h.1, h.2.1, by decide⟩

theorem port_text_nul_free (R PT : List Char) (hNR : NUL ∉ R) (h : port_text R = some PT) :
    NUL ∉ PT := by
  unfold port_text at h
  have e := List.takeWhile_append_dropWhile is_site_byte R
  have n1 := (not_mem_of_suffix e hNR).1
  have e2 := before_after_last_join '@' (R.takeWhile is_site_byte)
  have n3 := (not_mem_of_suffix e2 n1).2
  have e3 := upto_past_join ':' (after_last '@' (R.takeWhile is_site_byte))
  rw [h] at e3
  have n4 := (not_mem_of_suffix e3 n3).2
  exact fun m => n4 (List.mem_cons_of_mem _ m)

theorem digit_run_ends (PT : List Char) (hN : NUL ∉ PT) :
    deref (PT.dropWhile isdigit) = NUL ↔ ∀ c ∈ PT, c.isDigit = true := by
  constructor
  · intro h
    rcases dropWhile_cases isdigit PT with h1 | ⟨c, r, h1, _, h3⟩
    · intro c hc
      rw [← isdigit_eq]
      exact List.dropWhile_eq_nil_iff.mp h1 c hc
    · rw [h1] at h
      exact absurd (show c = NUL from h) (fun k => hN (k ▸ h3))
  · intro h
    have : PT.dropWhile isdigit = [] := by
      rw [List.dropWhile_eq_nil_iff]
      intro c hc
      rw [isdigit_eq]
      exact h c hc
    rw [this]
    rfl

/-- C8: with a port text that begins with a decimal digit, the parse returns
`APR_SUCCESS` when the port text is all decimal digits and `APR_EGENERAL`
otherwise; and every text on which it returns `APR_EGENERAL` has a non-empty
scheme followed by `://` and a non-empty port text. -/
theorem port_text_validation :
    (∀ (S R PT : List Char) (u0 : apr_uri_components),
      S ≠ [] → noneOf [':', '/', '?', '#'] S → NUL ∉ S ++ "://".toList ++ R →
      port_text R = some PT → (∃ d, PT.head? = some d ∧ d.isDigit = true) →
      (apr_uri_parse_components (S ++ "://".toList ++ R) u0).1
        = if ∀ c ∈ PT, c.isDigit = true then APR_SUCCESS else APR_EGENERAL)
    ∧ (∀ (uri : List Char) (u0 : apr_uri_components),
      NUL ∉ uri → (apr_uri_parse_components uri u0).1 = APR_EGENERAL →
      ∃ S R PT, uri = S ++ "://".toList ++ R ∧ S ≠ [] ∧ noneOf [':', '/', '?', '#'] S
        ∧ port_text R = some PT ∧ PT ≠ []) := by
  constructor
  · intro S R PT u0 hS hSd hnul hpt hd
    have e : S ++ "://".toList ++ R = S ++ ':' :: '/' :: '/' :: R := by
      simp [String.toList]
    rw [e] at hnul ⊢
    have hNS : NUL ∉ S := not_mem_append_left hnul
    have hNR : NUL ∉ R := fun m =>
      hnul (List.mem_append_right _
        (List.mem_cons_of_mem _ (List.mem_cons_of_mem _ (List.mem_cons_of_mem _ m))))
    have hNP := port_text_nul_free R PT hNR hpt
    obtain ⟨_, _, _, _, _, _, k7⟩ := parse_site_fields S R u0 hS hSd hNS hNR
    unfold port_text at hpt
    rw [k7, hpt]
    dsimp only
    obtain ⟨d, hd1, hd2⟩ := hd
    obtain ⟨t, rfl⟩ : ∃ t, PT = d :: t := by
      cases PT with
      | nil => simp at hd1
      | cons a t =>
        simp only [List.head?_cons, Option.some.injEq] at hd1
        exact ⟨t, by rw [hd1]⟩
    rw [strtol_digit_head d t (by rw [isdigit_eq]; exact hd2)]
    dsimp only
    by_cases hall : ∀ c ∈ d :: t, c.isDigit = true
    · rw [if_pos hall, if_neg]
      exact fun k => k.2 ((digit_run_ends (d :: t) hNP).mpr hall)
    · rw [if_neg hall, if_pos]
      exact ⟨by simp, fun k => hall ((digit_run_ends (d :: t) hNP).mp k)⟩
  · intro uri u0 hnul hbad
    rcases scheme_cases uri with h | ⟨S, R, e2, hS, hSd, _⟩
    · rw [parse_no_scheme uri u0 hnul h, deal_with_path_spec uri _ hnul] at hbad
      exact absurd (show APR_SUCCESS = APR_EGENERAL from hbad) (by decide)
    · have hNS : NUL ∉ S := by
        rw [e2] at hnul
        exact not_mem_append_left hnul
      have hNR : NUL ∉ R := by
        rw [e2] at hnul
        exact fun m => hnul (List.mem_append_right _
          (List.mem_cons_of_mem _ (List.mem_cons_of_mem _ (List.mem_cons_of_mem _ m))))
      obtain ⟨_, _, _, _, _, _, k7⟩ := parse_site_fields S R u0 hS hSd hNS hNR
      rw [e2, k7] at hbad
      cases hp : past ':' (after_last '@' (R.takeWhile is_site_byte)) with
      | none =>
        rw [hp] at hbad
        exact absurd hbad (by decide)
      | some PT =>
        rw [hp] at hbad
        dsimp only at hbad
        refine ⟨S, R, PT, ?_, hS, hSd, hp, ?_⟩
        · rw [e2]
          simp [String.toList]
        · intro hne
          rw [if_neg (fun k => k.1 hne)] at hbad
          exact absurd hbad (by decide)

/-- C8 at `http://h:80/` and `http://h:8o/`. -/
theorem port_text_validation_witness :
    (apr_uri_parse_components ("http".toList ++ "://".toList ++ "h:80/".toList) zeroed).1
      = (if ∀ c ∈ "80".toList, c.isDigit = true then APR_SUCCESS else APR_EGENERAL)
    ∧ (apr_uri_parse_components ("http".toList ++ "://".toList ++ "h:8o/".toList) zeroed).1
      = (if ∀ c ∈ "8o".toList, c.isDigit = true then APR_SUCCESS else APR_EGENERAL)
    ∧ (apr_uri_parse_components ("http".toList ++ "://".toList ++ "h:8o/".toList) zeroed).1
      = APR_EGENERAL :=
  ⟨port_text_validation.1 "http".toList "h:80/".toList "80".toList zeroed
      (by decide) (by decide) (by decide) (by decide) ⟨'8', by decide, by decide⟩,
    port_text_validation.1 "http".toList "h:8o/".toList "8o".toList zeroed
      (by decide) (by decide) (by decide) (by decide) ⟨'8', by decide, by decide⟩,
    by decide⟩

theorem deref_eq_nul_iff (l : List Char) (hN : NUL ∉ l) : deref l = NUL ↔ l = [] := by
  cases l with
  | nil => simp [deref]
  | cons a t =>
    have ha : a ≠ NUL := fun e => hN (e ▸ List.mem_cons_self a t)
    simp [deref, ha]

/-- The parse of `H:PT` by `apr_uri_parse_hostinfo_components`, for `H` without `:`. -/
theorem parse_hostinfo_split (H PT : List Char) (u0 : apr_uri_components)
    (hc : ':' ∉ H) (hNH : NUL ∉ H) (hNP : NUL ∉ PT) :
    apr_uri_parse_hostinfo_components (H ++ ':' :: PT) u0 =
      if PT ≠ [] then
        if deref (strtol PT).2 = NUL then
          (APR_SUCCESS,
            { zeroed with is_initialized := 1, hostinfo := some (H ++ ':' :: PT),
                          hostname := some H, port_str := some PT,
                          port := to_port (strtol PT).1 })
        else
          (APR_EGENERAL,
            { zeroed with is_initialized := 1, hostinfo := some (H ++ ':' :: PT),
                          hostname := some H, port_str := some PT,
                          port := to_port (strtol PT).1 })
      else
        (APR_EGENERAL,
          { zeroed with is_initialized := 1, hostinfo := some (H ++ ':' :: PT),
                        hostname := some H, port_str := some PT }) := by
  have hN : NUL ∉ H ++ ':' :: PT := by
    intro m
    rcases List.mem_append.mp m with m | m
    · exact hNH m
    · rcases List.mem_cons.mp m with m | m
      · exact absurd m (by decide)
      · exact hNP m
  have e3 : (H ++ ':' :: PT).drop (H.length + 1) = PT := by
    rw [← List.drop_drop, List.drop_left]
    rfl
  unfold apr_uri_parse_hostinfo_components
  rw [strchr_found ':' H PT hc hNH]
  simp only [e3, apr_pstrdup_id _ hN, apr_pstrdup_id _ hNP, apr_pstrndup_append H _ hNH]
  by_cases hp : PT = []
  · have h1 : ¬ (deref PT ≠ NUL) := fun k => k ((deref_eq_nul_iff PT hNP).mpr hp)
    have h2 : ¬ (PT ≠ []) := fun k => k hp
    rw [if_neg h1, if_neg h2]
  · have h1 : deref PT ≠ NUL := fun k => hp ((deref_eq_nul_iff PT hNP).mp k)
    rw [if_pos h1, if_pos hp]

theorem to_port_saturated (n : Nat) :
    to_port (if (n : Int) > LONG_MAX then LONG_MAX else (n : Int))
      = (min n LONG_MAX.toNat) % 65536 := by
  unfold to_port LONG_MAX
  split_ifs with h
  · have : min n (2 ^ 63 - 1 : Int).toNat = (2 ^ 63 - 1 : Int).toNat := by
      apply Nat.min_eq_right
      omega
    rw [this]
    omega
  · have : min n (2 ^ 63 - 1 : Int).toNat = n := by
      apply Nat.min_eq_left
      omega
    rw [this]
    omega

/-- C9, counterexample: on `host:9223372036854775808` the port is 65535, while the
decimal value of the port string is 0 modulo 65536. -/
theorem parse_hostinfo_port_saturates :
    ':' ∉ "host".toList
    ∧ "9223372036854775808".toList ≠ []
    ∧ (∀ c ∈ "9223372036854775808".toList, c.isDigit = true)
    ∧ (apr_uri_parse_hostinfo_components
        ("host".toList ++ ":".toList ++ "9223372036854775808".toList) zeroed).1 = APR_SUCCESS
    ∧ (apr_uri_parse_hostinfo_components
        ("host".toList ++ ":".toList ++ "9223372036854775808".toList) zeroed).2.port = 65535
    ∧ decimal_value "9223372036854775808".toList % 65536 = 0 := by
  decide

/-- C9, amended: `H:D` with `H` free of `:` and `D` a non-empty string of decimal
digits is parsed with `APR_SUCCESS` into hostinfo, hostname `H` (any `@`
kept), port string `D` and the port `min (value D) LONG_MAX` modulo 65536;
the structure is initialized and every other string field is absent. -/
theorem parse_hostinfo_host_port (H D : List Char) (u0 : apr_uri_components)
    (hH : ':' ∉ H) (hNH : NUL ∉ H) (hD : D ≠ []) (hDd : ∀ c ∈ D, c.isDigit = true) :
    (apr_uri_parse_hostinfo_components (H ++ ":".toList ++ D) u0).1 = APR_SUCCESS
    ∧ (apr_uri_parse_hostinfo_components (H ++ ":".toList ++ D) u0).2.hostinfo
        = some (H ++ ":".toList ++ D)
    ∧ (apr_uri_parse_hostinfo_components (H ++ ":".toList ++ D) u0).2.hostname = some H
    ∧ (apr_uri_parse_hostinfo_components (H ++ ":".toList ++ D) u0).2.port_str = some D
    ∧ (apr_uri_parse_hostinfo_components (H ++ ":".toList ++ D) u0).2.port
        = (min (decimal_value D) LONG_MAX.toNat) % 65536
    ∧ (decimal_value D ≤ LONG_MAX.toNat →
        (apr_uri_parse_hostinfo_components (H ++ ":".toList ++ D) u0).2.port
          = decimal_value D % 65536)
    ∧ (apr_uri_parse_hostinfo_components (H ++ ":".toList ++ D) u0).2.is_initialized = 1
    ∧ (apr_uri_parse_hostinfo_components (H ++ ":".toList ++ D) u0).2.scheme = none
    ∧ (apr_uri_parse_hostinfo_components (H ++ ":".toList ++ D) u0).2.user = none
    ∧ (apr_uri_parse_hostinfo_components (H ++ ":".toList ++ D) u0).2.password = none
    ∧ (apr_uri_parse_hostinfo_components (H ++ ":".toList ++ D) u0).2.path = none
    ∧ (apr_uri_parse_hostinfo_components (H ++ ":".toList ++ D) u0).2.query = none
    ∧ (apr_uri_parse_hostinfo_components (H ++ ":".toList ++ D) u0).2.fragment = none := by
  have e : H ++ ":".toList ++ D = H ++ ':' :: D := by
    simp [String.toList]
  have hND : NUL ∉ D := digits_free_of NUL D hDd (by decide)
  have hDd' : ∀ c ∈ D, isdigit c = true := fun c hc => by rw [isdigit_eq]; exact hDd c hc
  have hst := strtol_digits_string D hD hDd'
  rw [e, parse_hostinfo_split H D u0 hH hNH hND, if_pos hD, hst,
    if_pos (show deref ([] : List Char) = NUL from rfl)]
  have hp := to_port_saturated (decimal_value D)
  refine ⟨rfl, rfl, rfl, rfl, hp, ?_, rfl, rfl, rfl, rfl, rfl, rfl, rfl⟩
  intro hle
  show to_port _ = _
  rw [hp, Nat.min_eq_left hle]

/-- C9, amended, at `a@host:443`. -/
theorem parse_hostinfo_host_port_witness :
    (apr_uri_parse_hostinfo_components ("a@host".toList ++ ":".toList ++ "443".toList)
        zeroed).1 = APR_SUCCESS
    ∧ (apr_uri_parse_hostinfo_components ("a@host".toList ++ ":".toList ++ "443".toList)
        zeroed).2.hostname = some "a@host".toList
    ∧ (apr_uri_parse_hostinfo_components ("a@host".toList ++ ":".toList ++ "443".toList)
        zeroed).2.port = (min (decimal_value "443".toList) LONG_MAX.toNat) % 65536
    ∧ (min (decimal_value "443".toList) LONG_MAX.toNat) % 65536 = 443 := by
  have h := parse_hostinfo_host_port "a@host".toList "443".toList zeroed
    (by decide) (by decide) (by decide) (by decide)
  exact ⟨h.1, h.2.2.1, h.2.2.2.2.1, by decide⟩

/-- C10: `apr_uri_parse_hostinfo_components` returns `APR_EGENERAL` on a text
without `:`, on a text whose first `:` is its last byte, and on a text whose
part after the first `:` starts with a decimal digit and holds a byte that is
not one. -/
theorem parse_hostinfo_rejects :
    (∀ (H : List Char) (u0 : apr_uri_components), NUL ∉ H → ':' ∉ H →
      (apr_uri_parse_hostinfo_components H u0).1 = APR_EGENERAL)
    ∧ (∀ (H : List Char) (u0 : apr_uri_components), NUL ∉ H → ':' ∉ H →
      (apr_uri_parse_hostinfo_components (H ++ ":".toList) u0).1 = APR_EGENERAL)
    ∧ (∀ (H PT : List Char) (u0 : apr_uri_components), NUL ∉ H ++ ":".toList ++ PT →
      ':' ∉ H → (∃ d, PT.head? = some d ∧ d.isDigit = true) →
      ¬ (∀ c ∈ PT, c.isDigit = true) →
      (apr_uri_parse_hostinfo_components (H ++ ":".toList ++ PT) u0).1 = APR_EGENERAL) := by
  refine ⟨?_, ?_, ?_⟩
  · intro H u0 _ hc
    unfold apr_uri_parse_hostinfo_components
    rw [strchr_none ':' H hc]
  · intro H u0 hN hc
    have e : H ++ ":".toList = H ++ ':' :: [] := by
      simp [String.toList]
    rw [e, parse_hostinfo_split H [] u0 hc hN (by simp), if_neg (fun k => k rfl)]
  · intro H PT u0 hN hc hd hbad
    have e : H ++ ":".toList ++ PT = H ++ ':' :: PT := by
      simp [String.toList]
    rw [e] at hN ⊢
    have hNH : NUL ∉ H := not_mem_append_left hN
    have hNP : NUL ∉ PT := not_mem_append_cons_right hN
    obtain ⟨d, hd1, hd2⟩ := hd
    obtain ⟨t, rfl⟩ : ∃ t, PT = d :: t := by
      cases PT with
      | nil => simp at hd1
      | cons a t =>
        simp only [List.head?_cons, Option.some.injEq] at hd1
        exact ⟨t, by rw [hd1]⟩
    rw [parse_hostinfo_split H (d :: t) u0 hc hNH hNP, if_pos (by simp),
      strtol_digit_head d t (by rw [isdigit_eq]; exact hd2)]
    dsimp only
    rw [if_neg (fun k => hbad ((digit_run_ends (d :: t) hNP).mp k))]

/-- C10 at `host`, `host:` and `host:1:2`. -/
theorem parse_hostinfo_rejects_witness :
    (apr_uri_parse_hostinfo_components "host".toList zeroed).1 = APR_EGENERAL
    ∧ (apr_uri_parse_hostinfo_components ("host".toList ++ ":".toList) zeroed).1 = APR_EGENERAL
    ∧ (apr_uri_parse_hostinfo_components ("host".toList ++ ":".toList ++ "1:2".toList)
        zeroed).1 = APR_EGENERAL :=
  ⟨parse_hostinfo_rejects.1 "host".toList zeroed (by decide) (by decide),
    parse_hostinfo_rejects.2.1 "host".toList zeroed (by decide) (by decide),
    parse_hostinfo_rejects.2.2 "host".toList "1:2".toList zeroed (by decide) (by decide)
      ⟨'1', by decide, by decide⟩ (by decide)⟩

/-! ## Repeated calls on one structure -/

theorem deal_with_path_frame (uri : List Char) (u : apr_uri_components) :
    (deal_with_path uri u).2.hostent = u.hostent
    ∧ (deal_with_path uri u).2.is_initialized = u.is_initialized
    ∧ (deal_with_path uri u).2.dns_looked_up = u.dns_looked_up
    ∧ (deal_with_path uri u).2.dns_resolved = u.dns_resolved := by
  unfold deal_with_path
  dsimp only
  split_ifs <;> first | exact ⟨rfl, rfl, rfl, rfl⟩ | (split <;> exact ⟨rfl, rfl, rfl, rfl⟩)

theorem deal_with_host_frame (hostinfo uri : List Char) (u : apr_uri_components) :
    (deal_with_host hostinfo uri u).2.hostent = u.hostent
    ∧ (deal_with_host hostinfo uri u).2.is_initialized = u.is_initialized
    ∧ (deal_with_host hostinfo uri u).2.dns_looked_up = u.dns_looked_up
    ∧ (deal_with_host hostinfo uri u).2.dns_resolved = u.dns_resolved := by
  unfold deal_with_host
  split
  · exact deal_with_path_frame _ _
  · dsimp only
    split_ifs
    · exact deal_with_path_frame _ _
    · exact ⟨rfl, rfl, rfl, rfl⟩
    · exact deal_with_path_frame _ _

theorem parse_components_frame (uri : List Char) (u0 : apr_uri_components) :
    (apr_uri_parse_components uri u0).2.hostent = none
    ∧ (apr_uri_parse_components uri u0).2.is_initialized = 1
    ∧ (apr_uri_parse_components uri u0).2.dns_looked_up = 0
    ∧ (apr_uri_parse_components uri u0).2.dns_resolved = 0 := by
  unfold apr_uri_parse_components
  dsimp only
  split_ifs
  · exact deal_with_path_frame _ _
  · exact deal_with_path_frame _ _
  · split
    · exact deal_with_host_frame _ _ _
    · split <;> exact deal_with_host_frame _ _ _

theorem parse_hostinfo_frame (hostinfo : List Char) (u0 : apr_uri_components) :
    (apr_uri_parse_hostinfo_components hostinfo u0).2.hostent = none
    ∧ (apr_uri_parse_hostinfo_components hostinfo u0).2.is_initialized = 1
    ∧ (apr_uri_parse_hostinfo_components hostinfo u0).2.dns_looked_up = 0
    ∧ (apr_uri_parse_hostinfo_components hostinfo u0).2.dns_resolved = 0
    ∧ (apr_uri_parse_hostinfo_components hostinfo u0).2.scheme = none
    ∧ (apr_uri_parse_hostinfo_components hostinfo u0).2.user = none
    ∧ (apr_uri_parse_hostinfo_components hostinfo u0).2.password = none
    ∧ (apr_uri_parse_hostinfo_components hostinfo u0).2.path = none
    ∧ (apr_uri_parse_hostinfo_components hostinfo u0).2.query = none
    ∧ (apr_uri_parse_hostinfo_components hostinfo u0).2.fragment = none := by
  unfold apr_uri_parse_hostinfo_components
  dsimp only
  split
  · exact ⟨rfl, rfl, rfl, rfl, rfl, rfl, rfl, rfl, rfl, rfl⟩
  · split_ifs <;> exact ⟨rfl, rfl, rfl, rfl, rfl, rfl, rfl, rfl, rfl, rfl⟩

theorem deal_with_path_keeps_site (uri : List Char) (u : apr_uri_components) :
    (deal_with_path uri u).2.scheme = u.scheme
    ∧ (deal_with_path uri u).2.hostinfo = u.hostinfo
    ∧ (deal_with_path uri u).2.user = u.user
    ∧ (deal_with_path uri u).2.password = u.password
    ∧ (deal_with_path uri u).2.hostname = u.hostname
    ∧ (deal_with_path uri u).2.port_str = u.port_str := by
  unfold deal_with_path
  dsimp only
  split_ifs <;> first | exact ⟨rfl, rfl, rfl, rfl, rfl, rfl⟩
                      | (split <;> exact ⟨rfl, rfl, rfl, rfl, rfl, rfl⟩)

theorem deal_with_host_keeps_scheme (hostinfo uri : List Char) (u : apr_uri_components) :
    (deal_with_host hostinfo uri u).2.scheme = u.scheme := by
  unfold deal_with_host
  split
  · exact (deal_with_path_keeps_site _ _).1
  · dsimp only
    split_ifs
    · exact (deal_with_path_keeps_site _ _).1
    · rfl
    · exact (deal_with_path_keeps_site _ _).1

theorem parse_components_no_scheme_no_site (uri : List Char) (u0 : apr_uri_components)
    (h : (apr_uri_parse_components uri u0).2.scheme = none) :
    (apr_uri_parse_components uri u0).2.hostinfo = none
    ∧ (apr_uri_parse_components uri u0).2.user = none
    ∧ (apr_uri_parse_components uri u0).2.password = none
    ∧ (apr_uri_parse_components uri u0).2.hostname = none
    ∧ (apr_uri_parse_components uri u0).2.port_str = none := by
  unfold apr_uri_parse_components at h ⊢
  dsimp only at h ⊢
  split_ifs at h ⊢
  · exact (deal_with_path_keeps_site _ _).2
  · exact (deal_with_path_keeps_site _ _).2
  · exfalso
    split at h
    · rw [deal_with_host_keeps_scheme] at h
      cases h
    · split at h <;>
      · rw [deal_with_host_keeps_scheme] at h
        cases h

/-- C11: both parsers start from a cleared structure: the status and the
resulting structure do not depend on what the structure held before; the
result has `is_initialized = 1`, `dns_looked_up = 0`, `dns_resolved = 0` and a
null `hostent`; `apr_uri_parse_hostinfo_components`, which never assigns
scheme, user, password, path, query or fragment, leaves them absent; and when
`apr_uri_parse_components` assigns no scheme, the other site fields, which it
assigns only after the scheme, are absent too. -/
theorem parsers_ignore_prior_contents :
    (∀ (uri : List Char) (u1 u2 : apr_uri_components),
      apr_uri_parse_components uri u1 = apr_uri_parse_components uri u2
      ∧ apr_uri_parse_hostinfo_components uri u1 = apr_uri_parse_hostinfo_components uri u2)
    ∧ (∀ (uri : List Char) (u0 : apr_uri_components),
      (apr_uri_parse_components uri u0).2.is_initialized = 1
      ∧ (apr_uri_parse_components uri u0).2.dns_looked_up = 0
      ∧ (apr_uri_parse_components uri u0).2.dns_resolved = 0
      ∧ (apr_uri_parse_components uri u0).2.hostent = none
      ∧ (apr_uri_parse_hostinfo_components uri u0).2.is_initialized = 1
      ∧ (apr_uri_parse_hostinfo_components uri u0).2.dns_looked_up = 0
      ∧ (apr_uri_parse_hostinfo_components uri u0).2.dns_resolved = 0
      ∧ (apr_uri_parse_hostinfo_components uri u0).2.hostent = none)
    ∧ (∀ (hostinfo : List Char) (u0 : apr_uri_components),
      (apr_uri_parse_hostinfo_components hostinfo u0).2.scheme = none
      ∧ (apr_uri_parse_hostinfo_components hostinfo u0).2.user = none
      ∧ (apr_uri_parse_hostinfo_components hostinfo u0).2.password = none
      ∧ (apr_uri_parse_hostinfo_components hostinfo u0).2.path = none
      ∧ (apr_uri_parse_hostinfo_components hostinfo u0).2.query = none
      ∧ (apr_uri_parse_hostinfo_components hostinfo u0).2.fragment = none)
    ∧ (∀ (uri : List Char) (u0 : apr_uri_components),
      (apr_uri_parse_components uri u0).2.scheme = none →
      (apr_uri_parse_components uri u0).2.hostinfo = none
      ∧ (apr_uri_parse_components uri u0).2.user = none
      ∧ (apr_uri_parse_components uri u0).2.password = none
      ∧ (apr_uri_parse_components uri u0).2.hostname = none
      ∧ (apr_uri_parse_components uri u0).2.port_str = none) := by
  refine ⟨fun uri u1 u2 => ⟨rfl, rfl⟩, ?_, ?_, parse_components_no_scheme_no_site⟩
  · intro uri u0
    obtain ⟨a1, a2, a3, a4⟩ := parse_components_frame uri u0
    obtain ⟨b1, b2, b3, b4, _⟩ := parse_hostinfo_frame uri u0
    exact ⟨a2, a3, a4, a1, b2, b3, b4, b1⟩
  · intro hostinfo u0
    exact (parse_hostinfo_frame hostinfo u0).2.2.2.2

/-- C11 at `/index.html?x` parsed into a structure that was in use. -/
theorem parsers_ignore_prior_contents_witness :
    apr_uri_parse_components "/index.html?x".toList stale
      = apr_uri_parse_components "/index.html?x".toList zeroed
    ∧ (apr_uri_parse_components "/index.html?x".toList stale).2.scheme = none
    ∧ (apr_uri_parse_components "/index.html?x".toList stale).2.hostname = none
    ∧ (apr_uri_parse_components "/index.html?x".toList stale).2.fragment = none :=
  ⟨(parsers_ignore_prior_contents.1 "/index.html?x".toList stale zeroed).1,
    by decide,
    (parsers_ignore_prior_contents.2.2.2 "/index.html?x".toList stale (by decide)).2.2.2.1,
    by decide⟩

end AprUri

namespace AprXml

/-! ## Constants, the intern table and quoting -/

/-- C12: the namespace-id and style constants have their fixed values, and
`APR_XML_NS_IS_ERROR(e)` holds exactly for `e <= -100`: it is false for
`APR_XML_NS_NONE` and for every table index, and `APR_XML_NS_NONE` is not a
table index. -/
theorem namespace_id_regimes :
    APR_XML_NS_DAV_ID = 0 ∧ APR_XML_NS_NONE = -10 ∧ APR_XML_NS_ERROR_BASE = -100
    ∧ APR_XML_X2T_FULL = 0 ∧ APR_XML_X2T_INNER = 1 ∧ APR_XML_X2T_LANG_INNER = 2
    ∧ APR_XML_X2T_FULL_NS_LANG = 3
    ∧ (∀ e : Int, APR_XML_NS_IS_ERROR e = true ↔ e ≤ -100)
    ∧ APR_XML_NS_IS_ERROR APR_XML_NS_NONE = false
    ∧ (∀ e : Int, 0 ≤ e → APR_XML_NS_IS_ERROR e = false)
    ∧ ¬ (0 ≤ APR_XML_NS_NONE) := by
  refine ⟨rfl, rfl, rfl, rfl, rfl, rfl, rfl, ?_, by decide, ?_, by decide⟩
  · intro e
    simp [APR_XML_NS_IS_ERROR, APR_XML_NS_ERROR_BASE]
  · intro e he
    simp only [APR_XML_NS_IS_ERROR, APR_XML_NS_ERROR_BASE, decide_eq_false_iff_not]
    omega

/-- C12 at the table index 5 and at the error id -101. -/
theorem namespace_id_regimes_witness :
    APR_XML_NS_IS_ERROR 5 = false ∧ APR_XML_NS_IS_ERROR (-101) = true :=
  ⟨namespace_id_regimes.2.2.2.2.2.2.2.2.2.1 5 (by decide),
    (namespace_id_regimes.2.2.2.2.2.2.2.1 (-101)).mpr (by decide)⟩

theorem uri_index_append_new (uri : List Char) (t : List (List Char))
    (h : uri_index uri t = none) : uri_index uri (t ++ [uri]) = some t.length := by
  induction t with
  | nil => simp [uri_index]
  | cons u rest ih =>
    rw [uri_index] at h
    by_cases hu : u = uri
    · rw [if_pos hu] at h
      cases h
    · rw [if_neg hu] at h
      have h2 : uri_index uri rest = none := by
        cases hr : uri_index uri rest with
        | none => rfl
        | some i =>
          rw [hr] at h
          cases h
      rw [List.cons_append, uri_index, if_neg hu, ih h2]
      rfl

/-- A second insertion of the same URI finds it and changes nothing. -/
theorem insert_uri_twice (t : List (List Char)) (uri : List Char) :
    apr_xml_insert_uri (apr_xml_insert_uri t uri).2 uri
      = ((apr_xml_insert_uri t uri).1, (apr_xml_insert_uri t uri).2) := by
  unfold apr_xml_insert_uri
  cases h : uri_index uri t with
  | some i =>
    dsimp only
    rw [h]
  | none =>
    dsimp only
    rw [uri_index_append_new uri t h]

theorem reachable_head (t : List (List Char)) (h : Reachable t) :
    ∃ rest, t = "DAV:".toList :: rest := by
  induction h with
  | init => exact ⟨[], rfl⟩
  | step t uri _ ih =>
    obtain ⟨rest, rfl⟩ := ih
    unfold apr_xml_insert_uri
    cases uri_index uri ("DAV:".toList :: rest) with
    | some i => exact ⟨rest, rfl⟩
    | none => exact ⟨rest ++ [uri], rfl⟩

/-- C13: on every table reachable from construction, inserting a URI twice
returns the same index both times and the second call leaves the table
unchanged; and `DAV:` has index 0, without any change to the table. -/
theorem insert_uri_idempotent_and_seeded (t : List (List Char)) (h : Reachable t) :
    (∀ uri : List Char,
      (apr_xml_insert_uri (apr_xml_insert_uri t uri).2 uri).1 = (apr_xml_insert_uri t uri).1
      ∧ (apr_xml_insert_uri (apr_xml_insert_uri t uri).2 uri).2 = (apr_xml_insert_uri t uri).2)
    ∧ apr_xml_insert_uri t "DAV:".toList = (APR_XML_NS_DAV_ID, t) := by
  constructor
  · intro uri
    rw [insert_uri_twice]
    exact ⟨rfl, rfl⟩
  · obtain ⟨rest, rfl⟩ := reachable_head t h
    rfl

/-- C13 on the fresh table and on the table after `urn:a` was inserted. -/
theorem insert_uri_idempotent_and_seeded_witness :
    apr_xml_insert_uri new_namespaces "DAV:".toList = (APR_XML_NS_DAV_ID, new_namespaces)
    ∧ apr_xml_insert_uri (apr_xml_insert_uri new_namespaces "urn:a".toList).2 "DAV:".toList
      = (APR_XML_NS_DAV_ID, (apr_xml_insert_uri new_namespaces "urn:a".toList).2)
    ∧ (apr_xml_insert_uri (apr_xml_insert_uri new_namespaces "urn:a".toList).2
        "urn:a".toList).1 = 1 :=
  ⟨(insert_uri_idempotent_and_seeded new_namespaces Reachable.init).2,
    (insert_uri_idempotent_and_seeded _
      (Reachable.step new_namespaces "urn:a".toList Reachable.init)).2,
    by decide⟩

theorem quote_string_append (s t : List Char) (quotes : Bool) :
    apr_xml_quote_string (s ++ t) quotes
      = apr_xml_quote_string s quotes ++ apr_xml_quote_string t quotes := by
  induction s with
  | nil => rfl
  | cons c s ih =>
    rw [List.cons_append, apr_xml_quote_string, apr_xml_quote_string, ih, List.append_assoc]

theorem quote_string_plain (c : Char) (quotes : Bool)
    (h : c ≠ '<' ∧ c ≠ '>' ∧ c ≠ '&' ∧ (c = QUOT → quotes = false)) :
    apr_xml_quote_string [c] quotes = [c] := by
  obtain ⟨h1, h2, h3, h4⟩ := h
  have h5 : ¬ (c = QUOT ∧ quotes = true) := by
    rintro ⟨e, q⟩
    rw [h4 e] at q
    cases q
  rw [apr_xml_quote_string, if_neg h1, if_neg h2, if_neg h3, if_neg h5]
  rfl

/-- C14: `apr_xml_quote_string` goes through its input byte by byte and in
order: the quoting of a concatenation is the concatenation of the quotings;
`<`, `>` and `&` become `&lt;`, `&gt;` and `&amp;`; the double quote becomes
`&quot;` if and only if `quotes` is set; every other byte is left as it is.  So
`<a&b>` is quoted as `&lt;a&amp;b&gt;`, and quoting `&` twice gives
`&amp;amp;`, which is not the result of quoting it once. -/
theorem quote_string_spec :
    (∀ (s t : List Char) (quotes : Bool),
      apr_xml_quote_string (s ++ t) quotes
        = apr_xml_quote_string s quotes ++ apr_xml_quote_string t quotes)
    ∧ (∀ quotes : Bool, apr_xml_quote_string [] quotes = []
        ∧ apr_xml_quote_string ['<'] quotes = "&lt;".toList
        ∧ apr_xml_quote_string ['>'] quotes = "&gt;".toList
        ∧ apr_xml_quote_string ['&'] quotes = "&amp;".toList)
    ∧ apr_xml_quote_string [QUOT] true = "&quot;".toList
    ∧ apr_xml_quote_string [QUOT] false = [QUOT]
    ∧ (∀ (c : Char) (quotes : Bool), c ≠ '<' → c ≠ '>' → c ≠ '&' → c ≠ QUOT →
        apr_xml_quote_string [c] quotes = [c])
    ∧ apr_xml_quote_string "<a&b>".toList false = "&lt;a&amp;b&gt;".toList
    ∧ apr_xml_quote_string (apr_xml_quote_string "&".toList false) false = "&amp;amp;".toList
    ∧ apr_xml_quote_string (apr_xml_quote_string "&".toList false) false
        ≠ apr_xml_quote_string "&".toList false := by
  refine ⟨quote_string_append, ?_, by decide, by decide, ?_, by decide, by decide, by decide⟩
  · intro quotes
    cases quotes <;> decide
  · intro c quotes h1 h2 h3 h4
    exact quote_string_plain c quotes ⟨h1, h2, h3, fun e => absurd e h4⟩

/-- C14 at `say`, a double quote, `hi`, a double quote: the quotes stay without
`quotes` and become entities with it. -/
theorem quote_string_spec_witness :
    apr_xml_quote_string ['s'] false = ['s']
    ∧ apr_xml_quote_string ("say ".toList ++ QUOT :: 'h' :: 'i' :: [QUOT]) false
        = "say ".toList ++ QUOT :: 'h' :: 'i' :: [QUOT]
    ∧ apr_xml_quote_string ("say ".toList ++ QUOT :: 'h' :: 'i' :: [QUOT]) true
        = "say &quot;hi&quot;".toList :=
  ⟨quote_string_spec.2.2.2.2.1 's' false (by decide) (by decide) (by decide) (by decide),
    by decide, by decide⟩

/-! ## The tree builder keeps the content in document order -/

theorem content_append_child (F e : apr_xml_elem) :
    content_of_elem (append_child F e) = content_of_elem F ++ content_of_elem e := by
  induction F with
  | null => rfl
  | elem n ns l fc fol a c next _ ihn =>
    rw [append_child, content_of_elem, content_of_elem, ihn]
    simp only [List.cons_append, List.append_assoc]

theorem content_append_following (t : List Char) (F : apr_xml_elem)
    (h : F ≠ apr_xml_elem.null) :
    content_of_elem (append_following t F) = content_of_elem F ++ [content_item.text t] := by
  induction F with
  | null => exact absurd rfl h
  | elem n ns l fc fol a c next _ ihn =>
    cases next with
    | null =>
      simp only [append_following, content_of_elem, apr_text_append, List.map_append,
        List.map_cons, List.map_nil, List.append_nil, List.cons_append, List.append_assoc]
    | elem n2 ns2 l2 fc2 fol2 a2 c2 next2 =>
      have e : append_following t
          (apr_xml_elem.elem n ns l fc fol a c (apr_xml_elem.elem n2 ns2 l2 fc2 fol2 a2 c2 next2))
          = apr_xml_elem.elem n ns l fc fol a c
              (append_following t (apr_xml_elem.elem n2 ns2 l2 fc2 fol2 a2 c2 next2)) := rfl
      have ih := ihn (by simp)
      generalize apr_xml_elem.elem n2 ns2 l2 fc2 fol2 a2 c2 next2 = Y at ih e ⊢
      rw [e, content_of_elem, ih, content_of_elem]
      simp only [List.cons_append, List.append_assoc]

/-- A start tag is rejected, or its declarations and names resolve and the new
element is pushed on the build stack. -/
theorem handle_start_cases (p : apr_xml_parser_st) (name : List Char)
    (attrs : List (List Char × List Char)) :
    (handle_event p (xml_event.StartElement name attrs)).state = parser_state.Error
    ∨ ∃ d n ns as,
      ¬ (p.stack = [] ∧ p.root ≠ apr_xml_elem.null)
      ∧ apply_decls p.namespaces [] none attrs = Except.ok d
      ∧ resolve_name (d.scope :: p.stack.map open_elem.scope) name = Except.ok (n, ns)
      ∧ resolve_attrs (d.scope :: p.stack.map open_elem.scope) d.rest = Except.ok as
      ∧ handle_event p (xml_event.StartElement name attrs) =
          { p with
              namespaces := d.namespaces,
              stack := { name := n, ns := ns, lang := d.lang, attr := as, first_cdata := [],
                         children := apr_xml_elem.null, scope := d.scope } :: p.stack } := by
  by_cases hc : p.stack = [] ∧ p.root ≠ apr_xml_elem.null
  · left
    rw [handle_event, if_pos hc]
    rfl
  · cases hd : apply_decls p.namespaces [] none attrs with
    | error e =>
      left
      rw [handle_event, if_neg hc, hd]
      rfl
    | ok d =>
      cases hn : resolve_name (d.scope :: p.stack.map open_elem.scope) name with
      | error e =>
        left
        rw [handle_event, if_neg hc, hd]
        dsimp only
        rw [hn]
        rfl
      | ok r =>
        obtain ⟨n, ns⟩ := r
        cases ha : resolve_attrs (d.scope :: p.stack.map open_elem.scope) d.rest with
        | error e =>
          left
          rw [handle_event, if_neg hc, hd]
          dsimp only
          rw [hn]
          dsimp only
          rw [ha]
          rfl
        | ok as =>
          right
          refine ⟨d, n, ns, as, hc, rfl, hn, ha, ?_⟩
          rw [handle_event, if_neg hc, hd]
          dsimp only
          rw [hn]
          dsimp only
          rw [ha]

/-- Character data is rejected outside an element; inside it goes to the
current element, before any child, or to its last closed child. -/
theorem handle_cdata_cases (p : apr_xml_parser_st) (text : List Char) :
    (handle_event p (xml_event.CharacterData text)).state = parser_state.Error
    ∨ ∃ cur rest, p.stack = cur :: rest
      ∧ ((cur.children = apr_xml_elem.null
          ∧ handle_event p (xml_event.CharacterData text) =
            { p with stack :=
                { cur with first_cdata := apr_text_append cur.first_cdata text } :: rest })
        ∨ (cur.children ≠ apr_xml_elem.null
          ∧ handle_event p (xml_event.CharacterData text) =
            { p with stack :=
                { cur with children := append_following text cur.children } :: rest })) := by
  cases hst : p.stack with
  | nil =>
    left
    rw [handle_event, hst]
    rfl
  | cons cur rest =>
    right
    refine ⟨cur, rest, rfl, ?_⟩
    cases hch : cur.children with
    | null =>
      left
      refine ⟨rfl, ?_⟩
      rw [handle_event, hst]
      dsimp only
      rw [hch]
    | elem n ns l fc fol a c next =>
      right
      refine ⟨by simp, ?_⟩
      rw [handle_event, hst]
      dsimp only
      rw [hch]

/-- An end tag is rejected outside an element; inside it closes the current
element, which becomes the root or the last child of its parent. -/
theorem handle_end_cases (p : apr_xml_parser_st) :
    (handle_event p xml_event.EndElement).state = parser_state.Error
    ∨ (∃ cur, p.stack = [cur]
        ∧ handle_event p xml_event.EndElement = { p with stack := [], root := closed_elem cur })
    ∨ (∃ cur parent outer, p.stack = cur :: parent :: outer
        ∧ handle_event p xml_event.EndElement =
          { p with stack :=
              { parent with children := append_child parent.children (closed_elem cur) }
                :: outer }) := by
  cases hst : p.stack with
  | nil =>
    left
    rw [handle_event, hst]
    rfl
  | cons cur rest =>
    right
    cases rest with
    | nil =>
      left
      refine ⟨cur, rfl, ?_⟩
      rw [handle_event, hst]
      rfl
    | cons parent outer =>
      right
      refine ⟨cur, parent, outer, rfl, ?_⟩
      rw [handle_event, hst]
      rfl

/-- An event that the builder accepts keeps the invariant and the state, and
adds its own content at the end of the content built so far. -/
theorem handle_event_step (p : apr_xml_parser_st) (ev : xml_event) (hw : well_formed p)
    (hok : (handle_event p ev).state ≠ parser_state.Error) :
    well_formed (handle_event p ev)
    ∧ content_of_builder (handle_event p ev) = content_of_builder p ++ content_of_event ev
    ∧ (handle_event p ev).state = p.state := by
  obtain ⟨hw1, hw2⟩ := hw
  cases ev with
  | StartElement name attrs =>
    rcases handle_start_cases p name attrs with h | ⟨d, n, ns, as, hc, _, _, _, e⟩
    · exact absurd h hok
    · have hroot : p.root = apr_xml_elem.null := by
        by_cases hs : p.stack = []
        · by_contra hr
          exact hc ⟨hs, hr⟩
        · exact hw1 hs
      rw [e]
      refine ⟨⟨fun _ => hroot, hw2⟩, ?_, rfl⟩
      simp only [content_of_builder, content_of_stack, content_of_open, content_of_event,
        content_of_elem, List.map_nil, List.append_nil, List.nil_append, List.append_assoc]
  | EndElement =>
    rcases handle_end_cases p with h | ⟨cur, hst, e⟩ | ⟨cur, parent, outer, hst, e⟩
    · exact absurd h hok
    · have hroot : p.root = apr_xml_elem.null := hw1 (by rw [hst]; simp)
      rw [e]
      refine ⟨⟨fun h => absurd rfl h, Or.inr ⟨_, _, _, _, _, _, rfl⟩⟩, ?_, rfl⟩
      simp only [content_of_builder, hroot, hst, content_of_stack, content_of_open,
        closed_elem, content_of_event, content_of_elem, List.map_nil, List.append_nil,
        List.nil_append, List.cons_append, List.append_assoc]
    · rw [e]
      refine ⟨⟨fun _ => hw1 (by rw [hst]; simp), hw2⟩, ?_, rfl⟩
      simp only [content_of_builder, hst, content_of_stack, content_of_open, closed_elem,
        content_of_event, content_of_elem, content_append_child, List.map_nil,
        List.append_nil, List.nil_append, List.cons_append, List.append_assoc]
  | CharacterData text =>
    rcases handle_cdata_cases p text with h | ⟨cur, rest, hst, ⟨hch, e⟩ | ⟨hne, e⟩⟩
    · exact absurd h hok
    · rw [e]
      refine ⟨⟨fun _ => hw1 (by rw [hst]; simp), hw2⟩, ?_, rfl⟩
      simp only [content_of_builder, hst, content_of_stack, content_of_open, hch,
        content_of_event, content_of_elem, apr_text_append, List.map_append, List.map_cons,
        List.map_nil, List.append_nil, List.cons_append, List.append_assoc]
    · rw [e]
      refine ⟨⟨fun _ => hw1 (by rw [hst]; simp), hw2⟩, ?_, rfl⟩
      simp only [content_of_builder, hst, content_of_stack, content_of_open,
        content_of_event, content_append_following text cur.children hne,
        List.cons_append, List.append_assoc]
  | TokenizerError => exact absurd rfl hok

theorem handle_events_error (p : apr_xml_parser_st) (evs : List xml_event)
    (h : p.state = parser_state.Error) : handle_events p evs = p := by
  cases evs with
  | nil => rfl
  | cons ev evs => rw [handle_events, if_pos h]

/-- A sequence of events that the builder accepts keeps the invariant and the
state, and adds its content at the end of the content built so far. -/
theorem handle_events_ok (p : apr_xml_parser_st) (evs : List xml_event) (hw : well_formed p)
    (hok : (handle_events p evs).state ≠ parser_state.Error) :
    well_formed (handle_events p evs)
    ∧ content_of_builder (handle_events p evs)
        = content_of_builder p ++ content_of_events evs
    ∧ (handle_events p evs).state = p.state := by
  induction evs generalizing p with
  | nil => exact ⟨hw, by simp [handle_events, content_of_events], rfl⟩
  | cons ev evs ih =>
    by_cases hs : p.state = parser_state.Error
    · rw [handle_events_error p _ hs] at hok
      exact absurd hs hok
    · rw [handle_events, if_neg hs] at hok ⊢
      have hev : (handle_event p ev).state ≠ parser_state.Error := by
        intro he
        rw [handle_events_error _ evs he] at hok
        exact hok he
      obtain ⟨w1, c1, s1⟩ := handle_event_step p ev hw hev
      obtain ⟨w2, c2, s2⟩ := ih (handle_event p ev) w1 hok
      refine ⟨w2, ?_, s2.trans s1⟩
      rw [c2, c1, content_of_events, List.append_assoc]

theorem feed_error (p : apr_xml_parser_st) (chunk : List xml_event)
    (h : p.state = parser_state.Error) : (apr_xml_parser_feed p chunk).2 = p := by
  unfold apr_xml_parser_feed
  rw [h]

theorem feed_ok (p : apr_xml_parser_st) (chunk : List xml_event) (hw : well_formed p)
    (hs : p.state = parser_state.Idle ∨ p.state = parser_state.Feeding)
    (hok : (apr_xml_parser_feed p chunk).2.state ≠ parser_state.Error) :
    well_formed (apr_xml_parser_feed p chunk).2
    ∧ content_of_builder (apr_xml_parser_feed p chunk).2
        = content_of_builder p ++ content_of_events chunk
    ∧ (apr_xml_parser_feed p chunk).2.state = parser_state.Feeding := by
  have e : (apr_xml_parser_feed p chunk).2
      = handle_events { p with state := parser_state.Feeding } chunk := by
    unfold apr_xml_parser_feed
    rcases hs with hs | hs <;> rw [hs]
  rw [e] at hok ⊢
  exact handle_events_ok { p with state := parser_state.Feeding } chunk hw hok

theorem feed_all_error (p : apr_xml_parser_st) (chunks : List (List xml_event))
    (h : p.state = parser_state.Error) : feed_all p chunks = p := by
  induction chunks with
  | nil => rfl
  | cons c cs ih =>
    unfold feed_all at ih ⊢
    rw [List.foldl_cons, feed_error p c h]
    exact ih

/-- A sequence of chunks that the parser accepts keeps the invariant and adds
its content at the end of the content built so far. -/
theorem feed_all_ok (p : apr_xml_parser_st) (chunks : List (List xml_event))
    (hw : well_formed p)
    (hs : p.state = parser_state.Idle ∨ p.state = parser_state.Feeding)
    (hok : (feed_all p chunks).state ≠ parser_state.Error) :
    well_formed (feed_all p chunks)
    ∧ content_of_builder (feed_all p chunks)
        = content_of_builder p ++ content_of_chunks chunks
    ∧ ((feed_all p chunks).state = parser_state.Idle
        ∨ (feed_all p chunks).state = parser_state.Feeding) := by
  induction chunks generalizing p with
  | nil => exact ⟨hw, by simp [feed_all, content_of_chunks], hs⟩
  | cons c cs ih =>
    have e : feed_all p (c :: cs) = feed_all (apr_xml_parser_feed p c).2 cs := rfl
    rw [e] at hok ⊢
    have hc : (apr_xml_parser_feed p c).2.state ≠ parser_state.Error := by
      intro he
      rw [feed_all_error _ cs he] at hok
      exact hok he
    obtain ⟨w1, c1, s1⟩ := feed_ok p c hw hs hc
    obtain ⟨w2, c2, s2⟩ := ih (apr_xml_parser_feed p c).2 w1 (Or.inr s1) hok
    refine ⟨w2, ?_, s2⟩
    rw [c2, c1, content_of_chunks, List.append_assoc]

/-- A document comes out of `apr_xml_parser_done` only from a parser that is not
in error, with an empty build stack, and it holds the root of that parser. -/
theorem done_ok (p : apr_xml_parser_st) (doc : apr_xml_doc)
    (h : (apr_xml_parser_done p).1 = Except.ok doc) :
    p.state ≠ parser_state.Error ∧ p.stack = [] ∧ doc.root = p.root
    ∧ doc.namespaces = p.namespaces ∧ p.root ≠ apr_xml_elem.null := by
  unfold apr_xml_parser_done at h
  cases hs : p.state with
  | Error =>
    rw [hs] at h
    cases h
  | Finished =>
    rw [hs] at h
    cases h
  | Idle =>
    rw [hs] at h
    dsimp only at h
    cases hst : p.stack with
    | cons _ _ =>
      rw [hst] at h
      cases h
    | nil =>
      rw [hst] at h
      dsimp only at h
      cases hr : p.root with
      | null =>
        rw [hr] at h
        cases h
      | elem n ns l fc fol a c next =>
        rw [hr] at h
        dsimp only at h
        cases h
        exact ⟨by simp, rfl, rfl, rfl, by simp⟩
  | Feeding =>
    rw [hs] at h
    dsimp only at h
    cases hst : p.stack with
    | cons _ _ =>
      rw [hst] at h
      cases h
    | nil =>
      rw [hst] at h
      dsimp only at h
      cases hr : p.root with
      | null =>
        rw [hr] at h
        cases h
      | elem n ns l fc fol a c next =>
        rw [hr] at h
        dsimp only at h
        cases h
        exact ⟨by simp, rfl, rfl, rfl, by simp⟩

theorem create_well_formed : well_formed apr_xml_parser_create :=
  ⟨fun _ => rfl, Or.inl rfl⟩

/-- C15: the tree of every accepted sequence of events, read as start tag,
`first_cdata`, children, end tag, `following_cdata`, is the content of the
events in their order, so text before the first child sits in the
`first_cdata` of the element and text after the end tag of a child in the
`following_cdata` of that child; the root has no `following_cdata` and no
sibling.  Character data goes to the `first_cdata` of the current element
when it has no child yet, otherwise to its last closed child.  And the
document `<a:x xmlns:a="urn:a"><a:y>hi</a:y>tail</a:x>` gives root `x` with
empty `first_cdata` and `following_cdata` and one child `y` with `first_cdata`
`hi` and `following_cdata` `tail`, both in namespace 1, the index of `urn:a`. -/
theorem text_placement_exact :
    (∀ (chunks : List (List xml_event)) (doc : apr_xml_doc),
      parse_chunks chunks = Except.ok doc →
      content_of_elem doc.root = content_of_chunks chunks
      ∧ ∃ n ns l fc a c, doc.root = apr_xml_elem.elem n ns l fc [] a c apr_xml_elem.null)
    ∧ (∀ (p : apr_xml_parser_st) (cur : open_elem) (rest : List open_elem) (text : List Char),
      p.stack = cur :: rest →
      (cur.children = apr_xml_elem.null →
        handle_event p (xml_event.CharacterData text) =
          { p with stack :=
              { cur with first_cdata := apr_text_append cur.first_cdata text } :: rest })
      ∧ (cur.children ≠ apr_xml_elem.null →
        handle_event p (xml_event.CharacterData text) =
          { p with stack :=
              { cur with children := append_following text cur.children } :: rest }))
    ∧ parse_chunks [mixed_content_events] = Except.ok mixed_content_doc
    ∧ apr_xml_insert_uri mixed_content_doc.namespaces "urn:a".toList
        = (1, mixed_content_doc.namespaces) := by
  refine ⟨?_, ?_, by rfl, by rfl⟩
  · intro chunks doc h
    obtain ⟨hs, hst, hr, _, hnn⟩ := done_ok (feed_all apr_xml_parser_create chunks) doc h
    obtain ⟨w, c, _⟩ := feed_all_ok apr_xml_parser_create chunks create_well_formed
      (Or.inl rfl) hs
    constructor
    · have c0 : content_of_builder apr_xml_parser_create = [] := rfl
      rw [c0, List.nil_append] at c
      rw [hr, ← c]
      simp only [content_of_builder, hst, content_of_stack, List.append_nil]
    · rcases w.2 with hn | hx
      · exact absurd hn hnn
      · rw [hr]
        exact hx
  · intro p cur rest text hst
    constructor
    · intro hch
      rw [handle_event, hst]
      dsimp only
      rw [hch]
    · intro hne
      cases hch : cur.children with
      | null => exact absurd hch hne
      | elem n ns l fc fol a c next =>
        rw [handle_event, hst]
        dsimp only
        rw [hch]

/-- C15 at the document `<a:x xmlns:a="urn:a"><a:y>hi</a:y>tail</a:x>`, fed in two chunks. -/
theorem text_placement_exact_witness :
    parse_chunks [mixed_content_events.take 3, mixed_content_events.drop 3]
      = Except.ok mixed_content_doc
    ∧ content_of_elem mixed_content_doc.root
      = content_of_chunks [mixed_content_events.take 3, mixed_content_events.drop 3] :=
  ⟨by rfl,
    (text_placement_exact.1 [mixed_content_events.take 3, mixed_content_events.drop 3]
      mixed_content_doc (by rfl)).1⟩

/-! ## Namespace scoping -/

theorem binding_for_ext (s t : List (List Char)) (v : List Char) (ob : Option ns_binding)
    (he : table_ext s t) (h : binding_for s v ob) : binding_for t v ob := by
  unfold binding_for at h ⊢
  by_cases hv : v = []
  · rw [if_pos hv] at h ⊢
    exact h
  · rw [if_neg hv] at h ⊢
    obtain ⟨i, hi, hb⟩ := h
    exact ⟨i, he v i hi, hb⟩

theorem frame_entry_ext (s t : List (List Char)) (ov : Option (List Char))
    (ob : Option ns_binding) (he : table_ext s t) (h : frame_entry s ov ob) :
    frame_entry t ov ob := by
  cases ov with
  | none => exact h
  | some v => exact binding_for_ext s t v ob he h

theorem resolve_name_reserved (scopes : List ns_scope) (name q : List Char)
    (hq : name_pfx name = some q) (hr : is_reserved q = true) :
    resolve_name scopes name = Except.ok (name, APR_XML_NS_NONE) := by
  unfold resolve_name
  rw [hq]
  dsimp only
  rw [if_pos hr]

theorem resolve_attrs_reserved (scopes : List ns_scope) (n v q : List Char)
    (attrs : List (List Char × List Char))
    (hq : name_pfx n = some q) (hr : is_reserved q = true) :
    resolve_attrs scopes ((n, v) :: attrs)
      = (resolve_attrs scopes attrs).map
          (fun as => { name := n, ns := APR_XML_NS_NONE, value := v } :: as) := by
  rw [resolve_attrs, resolve_name_reserved scopes n q hq hr]
  dsimp only
  cases resolve_attrs scopes attrs <;> rfl

theorem apply_decls_keeps (namespaces : List (List Char)) (scope : ns_scope)
    (lang : Option (List Char)) (n v q : List Char) (attrs : List (List Char × List Char))
    (hq : name_pfx n = some q) (h1 : q ≠ "xmlns".toList) (h2 : n ≠ "xml:lang".toList) :
    apply_decls namespaces scope lang ((n, v) :: attrs)
      = (apply_decls namespaces scope lang attrs).map
          (fun r => { r with rest := (n, v) :: r.rest }) := by
  have h0 : n ≠ "xmlns".toList := by
    intro e
    rw [e] at hq
    have hx : name_pfx "xmlns".toList = none := by decide
    rw [hx] at hq
    cases hq
  have h3 : name_pfx n ≠ some "xmlns".toList := by
    rw [hq]
    intro e
    exact h1 (Option.some.inj e)
  rw [apply_decls, if_neg h0, if_neg h3, if_neg h2]
  cases apply_decls namespaces scope lang attrs <;> rfl

/-- C17: a name whose prefix starts with `xml` in any letter case resolves, in
every scope, to the name itself with namespace `APR_XML_NS_NONE`, which is
neither a table index nor an error id, and never to an error.  An element
with such a name is stored under the name with its prefix whenever the rest
of its start tag is accepted; an attribute with such a name that is neither
an `xmlns` declaration nor `xml:lang` stays among the attributes and is
stored the same way.  So `<xml:foo/>` gives an element named `xml:foo` in
the namespace `APR_XML_NS_NONE`. -/
theorem reserved_prefix_passthrough :
    (∀ (scopes : List ns_scope) (name q : List Char),
      name_pfx name = some q → is_reserved q = true →
      resolve_name scopes name = Except.ok (name, APR_XML_NS_NONE))
    ∧ APR_XML_NS_NONE = -10 ∧ ¬ (0 ≤ APR_XML_NS_NONE)
    ∧ APR_XML_NS_IS_ERROR APR_XML_NS_NONE = false
    ∧ (∀ (p : apr_xml_parser_st) (name q : List Char) (attrs : List (List Char × List Char))
        (d : decl_result) (as : List apr_xml_attr),
      name_pfx name = some q → is_reserved q = true →
      ¬ (p.stack = [] ∧ p.root ≠ apr_xml_elem.null) →
      apply_decls p.namespaces [] none attrs = Except.ok d →
      resolve_attrs (d.scope :: scopes_of p) d.rest = Except.ok as →
      handle_event p (xml_event.StartElement name attrs) =
        { p with
            namespaces := d.namespaces,
            stack := { name := name, ns := APR_XML_NS_NONE, lang := d.lang, attr := as,
                       first_cdata := [], children := apr_xml_elem.null,
                       scope := d.scope } :: p.stack })
    ∧ (∀ (namespaces : List (List Char)) (scope : ns_scope) (lang : Option (List Char))
        (n v q : List Char) (attrs : List (List Char × List Char)),
      name_pfx n = some q → is_reserved q = true →
      q ≠ "xmlns".toList → n ≠ "xml:lang".toList →
      apply_decls namespaces scope lang ((n, v) :: attrs)
        = (apply_decls namespaces scope lang attrs).map
            (fun r => { r with rest := (n, v) :: r.rest }))
    ∧ (∀ (scopes : List ns_scope) (n v q : List Char) (attrs : List (List Char × List Char)),
      name_pfx n = some q → is_reserved q = true →
      resolve_attrs scopes ((n, v) :: attrs)
        = (resolve_attrs scopes attrs).map
            (fun as => { name := n, ns := APR_XML_NS_NONE, value := v } :: as))
    ∧ parse_chunks [reserved_events] = Except.ok reserved_doc := by
  refine ⟨resolve_name_reserved, rfl, by decide, by decide, ?_, ?_, resolve_attrs_reserved,
    by rfl⟩
  · intro p name q attrs d as hq hr hc hd ha
    rw [handle_event, if_neg hc, hd]
    dsimp only
    rw [resolve_name_reserved _ name q hq hr]
    dsimp only
    unfold scopes_of at ha
    rw [ha]
  · intro namespaces scope lang n v q attrs hq _ h1 h2
    exact apply_decls_keeps namespaces scope lang n v q attrs hq h1 h2

/-- C17 at `<XmL-x:e xml:space="preserve">` on an element that declares a
default namespace: the names keep their prefixes and get `APR_XML_NS_NONE`. -/
theorem reserved_prefix_passthrough_witness :
    resolve_name [[([], ns_binding.id 0)]] "XmL-x:e".toList
      = Except.ok ("XmL-x:e".toList, APR_XML_NS_NONE)
    ∧ parse_chunks
        [[ xml_event.StartElement "XmL-x:e".toList
             [("xmlns".toList, "DAV:".toList), ("xml:space".toList, "preserve".toList)],
           xml_event.EndElement ]]
      = Except.ok
          { root :=
              apr_xml_elem.elem "XmL-x:e".toList APR_XML_NS_NONE none [] []
                [{ name := "xml:space".toList, ns := APR_XML_NS_NONE,
                   value := "preserve".toList }]
                apr_xml_elem.null apr_xml_elem.null,
            namespaces := ["DAV:".toList] } :=
  ⟨reserved_prefix_passthrough.1 [[([], ns_binding.id 0)]] "XmL-x:e".toList "XmL-x".toList
      (by decide) (by decide),
    by rfl⟩

end AprXml
